import Mathlib

/-
Verification of the report parser and HTML renderer of md_to_html.py.

Python strings are embedded as lists of characters (`Str`).  Code that can
raise an exception is embedded with `Option` (`none` models a raised,
uncaught exception).  Every definition mirrors the corresponding Python
function of src/md_to_html.py.
-/

set_option maxHeartbeats 1000000
set_option maxRecDepth 100000

abbrev Str := List Char

/-- Python whitespace for `str.strip` / regex `\s` (ASCII part). -/
def isPySpace (c : Char) : Bool :=
  c = ' ' || c = '\t' || c = '\n' || c = '\r' || c = '\x0b' || c = '\x0c'

/-- Python `str.lstrip()`. -/
def pyLStrip (s : Str) : Str := s.dropWhile isPySpace

/-- Python `str.rstrip()`. -/
def pyRStrip (s : Str) : Str := (s.reverse.dropWhile isPySpace).reverse

/-- Python `str.strip()`. -/
def pyStrip (s : Str) : Str := pyLStrip (pyRStrip s)

/-- Python `str.split(sep)` for a one-character separator: keeps empty pieces,
returns one more piece than there are separators. -/
def splitOnChar (sep : Char) : Str → List Str
  | [] => [[]]
  | c :: rest =>
    match splitOnChar sep rest with
    | [] => [[]]
    | h :: t => if c = sep then [] :: h :: t else (c :: h) :: t

/-- Python `needle in haystack` (substring test). -/
def containsSub (pat : Str) : Str → Bool
  | [] => pat.isEmpty
  | c :: rest => pat.isPrefixOf (c :: rest) || containsSub pat rest

/-- Worker for `removeAll`; the first argument is fuel, always at least the
length of the string, so the base case is never reached. -/
def removeAllAux (pat : Str) : Nat → Str → Str
  | 0, s => s
  | _, [] => []
  | fuel + 1, c :: rest =>
    if pat.isPrefixOf (c :: rest) && !pat.isEmpty then
      removeAllAux pat fuel (List.drop (pat.length - 1) rest)
    else c :: removeAllAux pat fuel rest

/-- Python `s.replace(pat, '')`: remove all occurrences of `pat`,
scanning left to right without rescanning. -/
def removeAll (pat : Str) (s : Str) : Str := removeAllAux pat s.length s

/-- Python `str.find(pat)`: index of the first occurrence, `none` for -1. -/
def pyFind (pat : Str) : Str → Option Nat
  | [] => if pat.isEmpty then some 0 else none
  | c :: rest =>
    if pat.isPrefixOf (c :: rest) then some 0
    else (pyFind pat rest).map (fun i => i + 1)

/-- ASCII decimal digit test (regex `\d`, `int()` digits). -/
def isDigitCh (c : Char) : Bool := '0' ≤ c && c ≤ '9'

def digitVal (c : Char) : Nat := c.toNat - 48

/-- Numeric value of a list of digit characters, most significant first. -/
def digitsVal (ds : Str) : Nat := ds.foldl (fun a c => a * 10 + digitVal c) 0

/-- Digits of `int()` after the first: digits with single underscores
allowed between digits (Python 3 numeric literals accepted by `int`). -/
def pyDigitsAux : Str → Nat → Option Nat
  | [], acc => some acc
  | c :: rest, acc =>
    if isDigitCh c then pyDigitsAux rest (acc * 10 + digitVal c)
    else if c = '_' then
      match rest with
      | [] => none
      | d :: rest2 =>
        if isDigitCh d then pyDigitsAux rest2 (acc * 10 + digitVal d) else none
    else none

/-- Python `int(s)` on a whitespace-free token, natural part. -/
def pyNat (s : Str) : Option Nat :=
  match s with
  | [] => none
  | c :: rest => if isDigitCh c then pyDigitsAux rest (digitVal c) else none

/-- Python `int(s)` on a whitespace-free token (optional sign). -/
def pyInt (s : Str) : Option Int :=
  match s with
  | [] => none
  | c :: rest =>
    if c = '+' then (pyNat rest).map (fun n => (n : Int))
    else if c = '-' then (pyNat rest).map (fun n => -(n : Int))
    else (pyNat (c :: rest)).map (fun n => (n : Int))

/-- First whitespace-separated token: Python `s.split()[0]`,
`none` models the IndexError when there is no token. -/
def firstTok (s : Str) : Option Str :=
  match pyLStrip s with
  | [] => none
  | c :: rest => some ((c :: rest).takeWhile (fun d => !isPySpace d))

/-- Worker for `natChars`; the first argument is fuel, always more than the
number of decimal digits, so the base case is never reached. -/
def natCharsAux : Nat → Nat → Str
  | 0, _ => []
  | fuel + 1, n =>
    if n < 10 then [Char.ofNat (48 + n)]
    else natCharsAux fuel (n / 10) ++ [Char.ofNat (48 + n % 10)]

/-- Decimal digits of a natural number, most significant first (Python `str(n)`). -/
def natChars (n : Nat) : Str := natCharsAux (n + 1) n

/-- Worker for `commaRev`; the first argument is fuel, always at least the
length of the string, so the base case is never reached. -/
def commaRevAux : Nat → Str → Str
  | 0, ds => ds
  | fuel + 1, ds =>
    if ds.length ≤ 3 then ds
    else ds.take 3 ++ ',' :: commaRevAux fuel (ds.drop 3)

/-- Insert a comma after every third character (input is reversed digits). -/
def commaRev (ds : Str) : Str := commaRevAux ds.length ds

/-- Python `f"{i:,}"`: decimal with thousands separators. -/
def commaFormat (i : Int) : Str :=
  if i < 0 then '-' :: (commaRev (natChars i.natAbs).reverse).reverse
  else (commaRev (natChars i.natAbs).reverse).reverse

/-- One character of Python `html.escape` (quote=True). -/
def escapeChar (c : Char) : Str :=
  if c = '&' then "&amp;".data
  else if c = '<' then "&lt;".data
  else if c = '>' then "&gt;".data
  else if c = '"' then "&quot;".data
  else if c = Char.ofNat 39 then "&#x27;".data
  else [c]

/-- Python `html.escape(s)` (quote=True, the default). -/
def htmlEscape : Str → Str
  | [] => []
  | c :: rest => escapeChar c ++ htmlEscape rest

/-- Python `re.match(r'^\s*\d+:', line)` as a Boolean. -/
def matchPreviewLine (line : Str) : Bool :=
  let t := line.dropWhile isPySpace
  let ds := t.takeWhile isDigitCh
  !ds.isEmpty && (t.drop ds.length).take 1 = [':']

/-- Python `re.search(r'\((\d+) more lines\)', line)`: value of the first
parenthesised digit run followed by " more lines)". -/
def findMore : Str → Option Nat
  | [] => none
  | c :: rest =>
    if c = '(' then
      let ds := rest.takeWhile isDigitCh
      if !ds.isEmpty && " more lines)".data.isPrefixOf (rest.drop ds.length) then
        some (digitsVal ds)
      else findMore rest
    else findMore rest

/-- The record produced by `parse_file_entry` (Python dict `file_info`). -/
structure FileInfo where
  filename : Str
  size : Str
  lines_count : Str
  preview_lines : List Str
  remaining_lines : Nat
deriving DecidableEq, Repr

/-- Initial `file_info` dict of `parse_file_entry`. -/
def initInfo : FileInfo :=
  { filename := [], size := [], lines_count := [], preview_lines := [], remaining_lines := 0 }

/-- One iteration of the line loop of `parse_file_entry`.  The state is the
record built so far together with the `in_preview_section` flag; `none`
models the uncaught IndexError raised by `parts[1]` when a "Size: " line
contains "characters" and "lines" but no comma. -/
def stepLine (st : FileInfo × Bool) (line : Str) : Option (FileInfo × Bool) :=
  if "--".data.isPrefixOf (pyStrip line) then some st
  else if "File: ".data.isPrefixOf line then
    some ({ st.1 with filename := pyStrip (removeAll "File: ".data line) }, st.2)
  else if "Size: ".data.isPrefixOf line then
    let size_info := pyStrip (removeAll "Size: ".data line)
    if containsSub "characters".data size_info && containsSub "lines".data size_info then
      match splitOnChar ',' size_info with
      | p0 :: p1 :: _ =>
        some ({ st.1 with size := pyStrip p0, lines_count := pyStrip p1 }, st.2)
      | _ => none
    else some st
  else if "Preview (first".data.isPrefixOf (pyStrip line) then some (st.1, true)
  else if st.2 && matchPreviewLine line then
    some ({ st.1 with preview_lines := st.1.preview_lines ++ [pyStrip line] }, st.2)
  else if containsSub "... (".data line && containsSub "more lines)".data line then
    match findMore line with
    | some k => some ({ st.1 with remaining_lines := k }, false)
    | none => some (st.1, false)
  else some st

/-- Python `parse_file_entry`. -/
def parse_file_entry (entry_text : Str) : Option FileInfo :=
  match (splitOnChar '\n' (pyStrip entry_text)).foldlM stepLine (initInfo, false) with
  | none => none
  | some st => some st.1

/-- Closing an accumulated entry block in `parse_text_content`: parse it and
keep the record only when its filename is non-empty. -/
def flushEntry (entries : List FileInfo) (cur : Str) : Option (List FileInfo) :=
  if pyStrip cur ≠ [] then
    match parse_file_entry cur with
    | none => none
    | some fi => some (if fi.filename ≠ [] then entries ++ [fi] else entries)
  else some entries

/-- One iteration of the line loop of `parse_text_content`. -/
def pstep (st : List FileInfo × Str) (line : Str) : Option (List FileInfo × Str) :=
  if "File: ".data.isPrefixOf line then
    match flushEntry st.1 st.2 with
    | none => none
    | some es => some (es, line ++ ['\n'])
  else if st.2 ≠ [] then some (st.1, st.2 ++ line ++ ['\n'])
  else some st

/-- Python `parse_text_content`. -/
def parse_text_content (content : Str) : Option (List FileInfo) :=
  match pyFind "RESULTS".data content with
  | none => some []
  | some i =>
    match (splitOnChar '\n' (List.drop i content)).foldlM pstep ([], []) with
    | none => none
    | some st => flushEntry st.1 st.2

/-
HTML renderer (`generate_html`).  The fixed text of the f-string templates is
reproduced below; `\x7b` and `\x7d` are literal braces, `\x27` a literal
apostrophe.  Interpolation points of the Python f-strings become list
concatenation.
-/

def hpA : Str := "<!DOCTYPE html>\n<html lang=\"en\">\n<head>\n    <meta charset=\"UTF-8\">\n    <meta name=\"viewport\" content=\"width=device-width, initial-scale=1.0\">\n    ".data

def hpB : Str := "\n    ".data

def cssStr : Str := "\n    <style>\n        * \x7b\n            margin: 0;\n            padding: 0;\n            box-sizing: border-box;\n        \x7d\n        \n        body \x7b\n            font-family: \x27Segoe UI\x27, Tahoma, Geneva, Verdana, sans-serif;\n            background: linear-gradient(135deg, #f5f7fa 0%, #c3cfe2 100%);\n            color: #2c3e50;\n            line-height: 1.6;\n            min-height: 100vh;\n            padding: 20px;\n        \x7d\n        \n        .container \x7b\n            max-width: 1200px;\n            margin: 0 auto;\n            background: white;\n            border-radius: 12px;\n            box-shadow: 0 10px 30px rgba(0,0,0,0.1);\n            overflow: hidden;\n        \x7d\n        \n        .header \x7b\n            background: linear-gradient(135deg, #667eea 0%, #764ba2 100%);\n            color: white;\n            padding: 40px 30px;\n            text-align: center;\n        \x7d\n        \n        .header h1 \x7b\n            font-size: 2.5em;\n            margin-bottom: 10px;\n            font-weight: 300;\n        \x7d\n        \n        .header .subtitle \x7b\n            font-size: 1.1em;\n            opacity: 0.9;\n        \x7d\n        \n        .stats \x7b\n            background: #34495e;\n            color: white;\n            padding: 20px 30px;\n            display: flex;\n            justify-content: space-around;\n            flex-wrap: wrap;\n        \x7d\n        \n        .stat-item \x7b\n            text-align: center;\n            margin: 10px;\n        \x7d\n        \n        .stat-number \x7b\n            font-size: 2em;\n            font-weight: bold;\n            display: block;\n            color: #3498db;\n        \x7d\n        \n        .stat-label \x7b\n            font-size: 0.9em;\n            opacity: 0.8;\n        \x7d\n        \n        .content \x7b\n            padding: 30px;\n        \x7d\n        \n        .file-entry \x7b\n            background: #f8f9fa;\n            border-left: 4px solid #3498db;\n            margin-bottom: 30px;\n            border-radius: 8px;\n            overflow: hidden;\n            transition: transform 0.2s ease, box-shadow 0.2s ease;\n        \x7d\n        \n        .file-entry:hover \x7b\n            transform: translateY(-2px);\n            box-shadow: 0 8px 25px rgba(0,0,0,0.1);\n        \x7d\n        \n        .file-header \x7b\n            background: #ecf0f1;\n            padding: 20px 25px;\n            border-bottom: 1px solid #bdc3c7;\n        \x7d\n        \n        .file-title \x7b\n            font-size: 1.3em;\n            color: #2c3e50;\n            margin-bottom: 8px;\n            font-weight: 600;\n        \x7d\n        \n        .file-meta \x7b\n            display: flex;\n            gap: 20px;\n            flex-wrap: wrap;\n        \x7d\n        \n        .meta-item \x7b\n            background: white;\n            padding: 5px 12px;\n            border-radius: 20px;\n            font-size: 0.85em;\n            color: #7f8c8d;\n            border: 1px solid #e0e0e0;\n        \x7d\n        \n        .preview-section \x7b\n            padding: 25px;\n        \x7d\n        \n        .preview-title \x7b\n            font-size: 1em;\n            color: #34495e;\n            margin-bottom: 15px;\n            font-weight: 600;\n        \x7d\n        \n        .preview-lines \x7b\n            background: #2c3e50;\n            color: #ecf0f1;  \n            padding: 20px;\n            border-radius: 6px;\n            font-family: \x27Consolas\x27, \x27Monaco\x27, \x27Courier New\x27, monospace;\n            font-size: 0.9em;\n            line-height: 1.4;\n            overflow-x: auto;\n        \x7d\n        \n        .preview-line \x7b\n            margin-bottom: 5px;\n            white-space: pre-wrap;\n        \x7d\n        \n        .line-number \x7b\n            color: #3498db;\n            margin-right: 10px;\n            font-weight: bold;\n        \x7d\n        \n        .remaining-lines \x7b\n            margin-top: 15px;\n            padding: 10px 15px;\n            background: #e8f4f8;\n            color: #2980b9;\n            border-radius: 4px;\n            font-size: 0.9em;\n            border-left: 3px solid #3498db;\n        \x7d\n        \n        .footer \x7b\n            background: #34495e;\n            color: white;\n            text-align: center;\n            padding: 20px;\n            font-size: 0.9em;\n        \x7d\n        \n        @media (max-width: 768px) \x7b\n            .container \x7b\n                margin: 10px;\n                border-radius: 8px;\n            \x7d\n            \n            .header \x7b\n                padding: 30px 20px;\n            \x7d\n            \n            .header h1 \x7b\n                font-size: 2em;\n            \x7d\n            \n            .stats \x7b\n                padding: 15px 20px;\n            \x7d\n            \n            .content \x7b\n                padding: 20px;\n            \x7d\n            \n            .file-meta \x7b\n                flex-direction: column;\n                gap: 10px;\n            \x7d\n        \x7d\n    </style>\n    ".data

def hpC : Str := "\n</head>\n<body>\n    <div class=\"container\">\n        <div class=\"header\">\n            ".data

def hpD : Str := "\n            <div class=\"subtitle\">Generated on ".data

def hpE : Str := "</div>\n        </div>\n        \n        <div class=\"stats\">\n            <div class=\"stat-item\">\n                <span class=\"stat-number\">".data

def hpF : Str := "</span>\n                <span class=\"stat-label\">Files</span>\n            </div>\n            <div class=\"stat-item\">\n                <span class=\"stat-number\">".data

def hpG : Str := "</span>\n                <span class=\"stat-label\">Characters</span>\n            </div>\n            <div class=\"stat-item\">\n                <span class=\"stat-number\">".data

def hpH : Str := "</span>\n                <span class=\"stat-label\">Lines</span>\n            </div>\n        </div>\n        \n        <div class=\"content\">\n".data

def epA : Str := "\n            <div class=\"file-entry\">\n                <div class=\"file-header\">\n                    <div class=\"file-title\">".data

def epB : Str := "</div>\n                    <div class=\"file-meta\">\n                        <span class=\"meta-item\">üìÑ ".data

def epC : Str := "</span>\n                        <span class=\"meta-item\">üìù ".data

def epD : Str := "</span>\n                    </div>\n                </div>\n                \n                <div class=\"preview-section\">\n                    <div class=\"preview-title\">Preview</div>\n                    <div class=\"preview-lines\">\n".data

def plA : Str := "                        <div class=\"preview-line\"><span class=\"line-number\">".data

def plB : Str := ":</span>".data

def plC : Str := "</div>\n".data

def noPreviewHtml : Str := "                        <div class=\"preview-line\">No preview available</div>\n".data

def closePreviewHtml : Str := "                    </div>\n".data

def remA : Str := "                    <div class=\"remaining-lines\">+ ".data

def remB : Str := " more lines...</div>\n".data

def entryTailHtml : Str := "                </div>\n            </div>\n".data

def docTailHtml : Str := "        </div>\n        \n        <div class=\"footer\">\n            Report generated from markdown files analysis\n        </div>\n    </div>\n</body>\n</html>".data

def joinStrs (l : List Str) : Str := l.foldr (fun a b => a ++ b) []

/-- `int(label.split()[0])` of a size/lines label; `none` models either the
IndexError (no token) or the ValueError (token not an integer), both of
which `generate_html` catches and ignores. -/
def labelInt (s : Str) : Option Int :=
  match firstTok s with
  | none => none
  | some t => pyInt t

/-- Contribution of one label to an aggregate counter in `generate_html`:
the `if entry[...]:` guard followed by `try: ... except: pass`. -/
def addLabel (acc : Int) (s : Str) : Int :=
  if s ≠ [] then
    match labelInt s with
    | some n => acc + n
    | none => acc
  else acc

/-- The statistics loop of `generate_html`: (total_chars, total_lines). -/
def totals (entries : List FileInfo) : Int × Int :=
  entries.foldl (fun acc e => (addLabel acc.1 e.size, addLabel acc.2 e.lines_count)) (0, 0)

/-- Pre-colon part of a stored preview line (`line.split(':', 1)[0]`). -/
def preColon (l : Str) : Str := l.takeWhile (fun c => !(c = ':'))

/-- HTML for one stored preview line: lines without a colon emit nothing;
the line-number part is inserted unescaped, the content part escaped. -/
def previewLineHtml (l : Str) : Str :=
  if containsSub [':'] l then
    plA ++ pyStrip (preColon l) ++ plB ++ htmlEscape (l.drop ((preColon l).length + 1)) ++ plC
  else []

/-- HTML block for one record (the body of the entry loop of `generate_html`). -/
def entryHtml (e : FileInfo) : Str :=
  epA ++ htmlEscape e.filename ++ epB ++ htmlEscape e.size ++ epC ++ htmlEscape e.lines_count ++ epD
    ++ (if e.preview_lines = [] then noPreviewHtml else joinStrs (e.preview_lines.map previewLineHtml))
    ++ closePreviewHtml
    ++ (if 0 < e.remaining_lines then remA ++ natChars e.remaining_lines ++ remB else [])
    ++ entryTailHtml

/-- Python `generate_html(file_entries, title)`; `ts` is the string produced
by `datetime.now().strftime(...)`, passed explicitly. -/
def generate_html (file_entries : List FileInfo) (title ts : Str) : Str :=
  hpA ++ "<title>".data ++ title ++ "</title>".data ++ hpB ++ cssStr ++ hpC ++ "<h1>".data ++ title
    ++ "</h1>".data ++ hpD ++ ts ++ hpE ++ natChars file_entries.length ++ hpF
    ++ commaFormat (totals file_entries).1 ++ hpG ++ commaFormat (totals file_entries).2 ++ hpH
    ++ joinStrs (file_entries.map entryHtml) ++ docTailHtml

/-- Reading the wall clock: returns the formatted timestamp and the next
read index (so the number of reads is observable). -/
def readClock (clock : Nat → Str) (k : Nat) : Str × Nat := (clock k, k + 1)

/-- `generate_html` with its single `datetime.now()` call made explicit:
the second component is the number of clock reads performed. -/
def generate_html_clocked (clock : Nat → Str) (file_entries : List FileInfo) (title : Str) :
    Str × Nat :=
  let r := readClock clock 0
  (generate_html file_entries title r.1, r.2)

/-
Auxiliary notions used by the theorems below.
-/

/-- `p` occurs as a contiguous substring of `s`. -/
def occursIn (p s : Str) : Prop := ∃ a b, s = a ++ p ++ b

/-- Number of markup-opening characters in a string. -/
def countLt (s : Str) : Nat := s.count '<'

/-- Number of markup-closing characters in a string. -/
def countGt (s : Str) : Nat := s.count '>'

/-- Number of non-whitespace characters in a string.  `strip` preserves it,
while removing an occurrence of a pattern with non-whitespace characters
strictly decreases it; this separates a string from its `replace` image. -/
def countNonWs (s : Str) : Nat := (s.filter (fun c => !isPySpace c)).length

/-- The default title used by the conversion functions. -/
def defTitle : Str := "Markdown Files Report".data

/-- The count of markup-opening characters contributed by the block of one record:
it depends only on the shape of the record (emptiness of the preview list,
which preview lines contain a colon, positivity of the remaining count),
never on the text of its fields. -/
def entryLtBudget (e : FileInfo) : Nat :=
  countLt epA + countLt epB + countLt epC + countLt epD
    + (if e.preview_lines = [] then countLt noPreviewHtml
       else (e.preview_lines.map
          (fun l => if containsSub [':'] l then countLt plA + countLt plB + countLt plC else 0)).sum)
    + countLt closePreviewHtml
    + (if 0 < e.remaining_lines then countLt remA + countLt remB else 0)
    + countLt entryTailHtml

/-- The count of markup-opening characters of the fixed document frame. -/
def fixedLt : Nat :=
  countLt hpA + countLt "<title>".data + countLt "</title>".data + countLt hpB + countLt cssStr
    + countLt hpC + countLt "<h1>".data + countLt "</h1>".data + countLt hpD + countLt hpE
    + countLt hpF + countLt hpG + countLt hpH + countLt docTailHtml

/-
Well-formed report text built from (filename, characters, lines) triples,
for the aggregate round-trip property.
-/

/-- A well-formed `Size: N characters, M lines` line. -/
def sizeLine (n m : Nat) : Str :=
  "Size: ".data ++ natChars n ++ " characters, ".data ++ natChars m ++ " lines".data

/-- A well-formed record block. -/
def blockText (b : Str × Nat × Nat) : Str :=
  "File: ".data ++ b.1 ++ '\n' :: sizeLine b.2.1 b.2.2 ++ ['\n']

/-- A well-formed report: the results marker followed by the blocks. -/
def reportText (bs : List (Str × Nat × Nat)) : Str :=
  "RESULTS\n".data ++ joinStrs (bs.map blockText)

/-- The record that parsing a well-formed block produces. -/
def recOf (b : Str × Nat × Nat) : FileInfo :=
  { filename := pyStrip (removeAll "File: ".data b.1),
    size := natChars b.2.1 ++ " characters".data,
    lines_count := natChars b.2.2 ++ " lines".data,
    preview_lines := [],
    remaining_lines := 0 }

/-- Contribution of one label to an aggregate, as the specification states it:
the integer value of the leading token, zero when absent or unparsable. -/
def labelContribution (s : Str) : Int :=
  match labelInt s with
  | some n => n
  | none => 0

/-
Basic lemmas about the string primitives.
-/

theorem dropWhile_append_sing (p : Char → Bool) (a : Str) (c : Char) (hc : p c = false) :
    (a ++ [c]).dropWhile p = a.dropWhile p ++ [c] := by
  induction a with
  | nil => simp [List.dropWhile, hc]
  | cons d a ih =>
    by_cases hd : p d = true
    · simpa [List.dropWhile_cons, hd] using ih
    · simp only [Bool.not_eq_true] at hd
      simp [List.dropWhile_cons, hd]

theorem dropWhile_append_of_ne_nil (p : Char → Bool) (a b : Str)
    (h : a.dropWhile p ≠ []) : (a ++ b).dropWhile p = a.dropWhile p ++ b := by
  induction a with
  | nil => simp at h
  | cons d a ih =>
    by_cases hd : p d = true
    · simp only [List.cons_append, List.dropWhile_cons, hd, if_true] at h ⊢
      exact ih h
    · simp only [Bool.not_eq_true] at hd
      simp [List.dropWhile_cons, hd]

theorem pyRStrip_append_nonws (s : Str) (c : Char) (hc : isPySpace c = false) :
    pyRStrip (s ++ [c]) = s ++ [c] := by
  unfold pyRStrip
  simp [List.dropWhile_cons, hc]

theorem pyRStrip_append_ws (s : Str) (c : Char) (hc : isPySpace c = true) :
    pyRStrip (s ++ [c]) = pyRStrip s := by
  unfold pyRStrip
  simp [List.dropWhile_cons, hc]

theorem pyRStrip_cons_nonws (s : Str) (c : Char) (hc : isPySpace c = false) :
    pyRStrip (c :: s) = c :: pyRStrip s := by
  unfold pyRStrip
  rw [List.reverse_cons, dropWhile_append_sing _ _ _ hc]
  simp

theorem pyRStrip_append_left (a r : Str) (h : pyRStrip r ≠ []) :
    pyRStrip (a ++ r) = a ++ pyRStrip r := by
  unfold pyRStrip at h ⊢
  rw [List.reverse_append, dropWhile_append_of_ne_nil]
  · simp
  · intro hnil
    exact h (by simp [hnil])

theorem pyStrip_cons_nonws (s : Str) (c : Char) (hc : isPySpace c = false) :
    pyStrip (c :: s) = c :: pyRStrip s := by
  unfold pyStrip pyLStrip
  rw [pyRStrip_cons_nonws _ _ hc]
  simp [List.dropWhile_cons, hc]

theorem pyStrip_append_ws (s : Str) (c : Char) (hc : isPySpace c = true) :
    pyStrip (s ++ [c]) = pyStrip s := by
  unfold pyStrip
  rw [pyRStrip_append_ws _ _ hc]

theorem pyStrip_ne_nil_of_head (s : Str) (c : Char) (hc : isPySpace c = false) :
    pyStrip (c :: s) ≠ [] := by
  rw [pyStrip_cons_nonws _ _ hc]
  simp

theorem pyStrip_nil : pyStrip [] = [] := rfl

theorem isPrefixOf_append_self (p s : Str) : p.isPrefixOf (p ++ s) = true := by
  induction p with
  | nil => simp [List.isPrefixOf]
  | cons c p ih => simp [List.isPrefixOf, ih]

theorem isPrefixOf_cons_of_ne (a b : Char) (x y : Str) (h : a ≠ b) :
    (a :: x).isPrefixOf (b :: y) = false := by
  simp [List.isPrefixOf, h]

theorem mem_of_isPrefixOf (p s : Str) (c : Char) (h : p.isPrefixOf s = true) (hc : c ∈ p) :
    c ∈ s := by
  induction p generalizing s with
  | nil => simp at hc
  | cons d p ih =>
    cases s with
    | nil => simp [List.isPrefixOf] at h
    | cons e s =>
      simp only [List.isPrefixOf, Bool.and_eq_true, beq_iff_eq] at h
      rcases List.mem_cons.mp hc with h1 | h1
      · exact List.mem_cons.mpr (Or.inl (h1.trans h.1))
      · exact List.mem_cons.mpr (Or.inr (ih s h.2 h1))

theorem containsSub_nil_pat (s : Str) : containsSub [] s = true := by
  cases s <;> simp [containsSub, List.isPrefixOf]

theorem containsSub_of_decomp (p a b : Str) : containsSub p (a ++ p ++ b) = true := by
  induction a with
  | nil =>
    cases p with
    | nil => simpa using containsSub_nil_pat b
    | cons c rest =>
      have h := isPrefixOf_append_self (c :: rest) b
      simp only [List.cons_append] at h
      simp [containsSub, h]
  | cons c a ih =>
    rw [List.append_assoc] at ih ⊢
    simp only [List.cons_append, containsSub]
    simp [ih]

theorem mem_of_containsSub (p s : Str) (c : Char) (h : containsSub p s = true) (hc : c ∈ p) :
    c ∈ s := by
  induction s with
  | nil =>
    simp only [containsSub, List.isEmpty_iff] at h
    subst h
    simp at hc
  | cons d s ih =>
    simp only [containsSub, Bool.or_eq_true] at h
    rcases h with h | h
    · exact mem_of_isPrefixOf _ _ _ h hc
    · exact List.mem_cons.mpr (Or.inr (ih h))

theorem containsSub_eq_false (p s : Str) (c : Char) (hc : c ∈ p) (hs : c ∉ s) :
    containsSub p s = false := by
  by_contra h
  simp only [Bool.not_eq_false] at h
  exact hs (mem_of_containsSub _ _ _ h hc)

theorem occursIn_append_left (p s a : Str) (h : occursIn p s) : occursIn p (a ++ s) := by
  obtain ⟨x, y, hxy⟩ := h
  exact ⟨a ++ x, y, by simp [hxy]⟩

theorem occursIn_append_right (p s b : Str) (h : occursIn p s) : occursIn p (s ++ b) := by
  obtain ⟨x, y, hxy⟩ := h
  exact ⟨x, y ++ b, by simp [hxy]⟩

theorem not_occursIn_of_not_mem (p s : Str) (c : Char) (hc : c ∈ p) (hs : c ∉ s) :
    ¬ occursIn p s := by
  rintro ⟨a, b, rfl⟩
  exact hs (by simp [hc])

/-
`removeAll`: recurrence equations (fuel irrelevance) and key properties.
-/

theorem removeAllAux_congr (pat : Str) :
    ∀ (f : Nat), ∀ (g : Nat) (s : Str), s.length ≤ f → s.length ≤ g →
      removeAllAux pat f s = removeAllAux pat g s := by
  intro f
  induction f with
  | zero =>
    intro g s hf _
    have : s = [] := List.length_eq_zero.mp (Nat.le_zero.mp hf)
    subst this
    cases g <;> rfl
  | succ f ih =>
    intro g s hf hg
    cases s with
    | nil => cases g <;> rfl
    | cons c rest =>
      cases g with
      | zero => simp at hg
      | succ g =>
        simp only [removeAllAux]
        by_cases hcond : (pat.isPrefixOf (c :: rest) && !pat.isEmpty) = true
        · rw [if_pos hcond, if_pos hcond]
          have hlen : (List.drop (pat.length - 1) rest).length ≤ f := by
            simp only [List.length_cons] at hf
            have := List.length_drop (pat.length - 1) rest
            omega
          have hleng : (List.drop (pat.length - 1) rest).length ≤ g := by
            simp only [List.length_cons] at hg
            have := List.length_drop (pat.length - 1) rest
            omega
          exact ih g _ hlen hleng
        · rw [if_neg hcond, if_neg hcond]
          have hlen : rest.length ≤ f := by
            simp only [List.length_cons] at hf
            omega
          have hleng : rest.length ≤ g := by
            simp only [List.length_cons] at hg
            omega
          rw [ih g rest hlen hleng]

theorem removeAll_nil (pat : Str) : removeAll pat [] = [] := rfl

theorem removeAll_cons (pat : Str) (c : Char) (rest : Str) :
    removeAll pat (c :: rest) =
      if pat.isPrefixOf (c :: rest) && !pat.isEmpty then
        removeAll pat (List.drop (pat.length - 1) rest)
      else c :: removeAll pat rest := by
  by_cases hcond : (pat.isPrefixOf (c :: rest) && !pat.isEmpty) = true
  · rw [if_pos hcond]
    show removeAllAux pat (c :: rest).length (c :: rest) = _
    simp only [List.length_cons, removeAllAux, hcond, if_true]
    exact removeAllAux_congr pat rest.length _ _
      (by have := List.length_drop (pat.length - 1) rest; omega) (Nat.le_refl _)
  · rw [if_neg hcond]
    show removeAllAux pat (c :: rest).length (c :: rest) = _
    simp only [List.length_cons, removeAllAux, hcond, if_false]
    rfl

theorem removeAll_of_leading (pat s : Str) (hp : pat ≠ []) :
    removeAll pat (pat ++ s) = removeAll pat s := by
  cases pat with
  | nil => exact absurd rfl hp
  | cons q qs =>
    rw [List.cons_append, removeAll_cons]
    have h1 : (q :: qs).isPrefixOf (q :: (qs ++ s)) = true := by
      have h2 := isPrefixOf_append_self (q :: qs) s
      simp only [List.cons_append] at h2
      exact h2
    rw [if_pos (by simp [h1])]
    congr 1
    simp [List.drop_left]

theorem removeAll_of_not_contains (pat s : Str) (h : containsSub pat s = false) :
    removeAll pat s = s := by
  induction s with
  | nil => rfl
  | cons c rest ih =>
    simp only [containsSub, Bool.or_eq_false_iff] at h
    rw [removeAll_cons, if_neg (by simp [h.1]), ih h.2]

/-
`splitOnChar` lemmas.
-/

theorem splitOnChar_ne_nil (sep : Char) (s : Str) : splitOnChar sep s ≠ [] := by
  cases s with
  | nil => simp [splitOnChar]
  | cons c rest =>
    simp only [splitOnChar]
    cases h : splitOnChar sep rest with
    | nil => simp
    | cons a t =>
      by_cases hc : c = sep <;> simp [hc]

theorem splitOnChar_not_mem (sep : Char) (s : Str) (h : sep ∉ s) :
    splitOnChar sep s = [s] := by
  induction s with
  | nil => rfl
  | cons c rest ih =>
    have hc : ¬ c = sep := fun hcc => h (by simp [hcc])
    have hrest : sep ∉ rest := fun hm => h (List.mem_cons.mpr (Or.inr hm))
    simp only [splitOnChar, ih hrest]
    simp [hc]

theorem splitOnChar_append (sep : Char) (a b : Str) (h : sep ∉ a) :
    splitOnChar sep (a ++ sep :: b) = a :: splitOnChar sep b := by
  induction a with
  | nil =>
    cases hsb : splitOnChar sep b with
    | nil => exact absurd hsb (splitOnChar_ne_nil sep b)
    | cons x t =>
      simp only [List.nil_append, splitOnChar, hsb]
      simp
  | cons c a ih =>
    have hc : ¬ c = sep := fun hcc => h (by simp [hcc])
    have ha : sep ∉ a := fun hm => h (List.mem_cons.mpr (Or.inr hm))
    simp only [List.cons_append, splitOnChar]
    rw [show a.append (sep :: b) = a ++ sep :: b from rfl, ih ha]
    simp [hc]

/-
`pyFind` lemmas.
-/

theorem pyFind_of_isPrefixOf (pat s : Str) (h : pat.isPrefixOf s = true) :
    pyFind pat s = some 0 := by
  cases s with
  | nil =>
    have : pat = [] := by
      cases pat with
      | nil => rfl
      | cons c p => simp [List.isPrefixOf] at h
    simp [pyFind, this]
  | cons c rest => simp [pyFind, h]

theorem pyFind_none_of_not_contains (pat s : Str) (hp : pat ≠ [])
    (h : containsSub pat s = false) : pyFind pat s = none := by
  induction s with
  | nil => simp [pyFind, List.isEmpty_iff, hp]
  | cons c rest ih =>
    simp only [containsSub, Bool.or_eq_false_iff] at h
    simp [pyFind, h.1, ih h.2]

/-
Digit characters and `natChars`.
-/

theorem isDigitCh_char_ofNat (k : Nat) (hk : k < 10) :
    isDigitCh (Char.ofNat (48 + k)) = true := by
  interval_cases k <;> decide

theorem digitVal_char_ofNat (k : Nat) (hk : k < 10) :
    digitVal (Char.ofNat (48 + k)) = k := by
  interval_cases k <;> decide

theorem natCharsAux_congr :
    ∀ (f : Nat), ∀ (g n : Nat), n < f → n < g → natCharsAux f n = natCharsAux g n := by
  intro f
  induction f with
  | zero => intro g n hf; omega
  | succ f ih =>
    intro g n hf hg
    cases g with
    | zero => omega
    | succ g =>
      simp only [natCharsAux]
      by_cases h10 : n < 10
      · rw [if_pos h10, if_pos h10]
      · rw [if_neg h10, if_neg h10]
        have hd : n / 10 < n := Nat.div_lt_self (by omega) (by omega)
        rw [ih g (n / 10) (by omega) (by omega)]

theorem natChars_eq (n : Nat) :
    natChars n =
      if n < 10 then [Char.ofNat (48 + n)]
      else natChars (n / 10) ++ [Char.ofNat (48 + n % 10)] := by
  have hstep : natChars n =
      if n < 10 then [Char.ofNat (48 + n)]
      else natCharsAux n (n / 10) ++ [Char.ofNat (48 + n % 10)] := rfl
  rw [hstep]
  by_cases h10 : n < 10
  · rw [if_pos h10, if_pos h10]
  · rw [if_neg h10, if_neg h10]
    have hd : n / 10 < n := Nat.div_lt_self (by omega) (by omega)
    unfold natChars
    rw [natCharsAux_congr n (n / 10 + 1) (n / 10) (by omega) (by omega)]

theorem natChars_all_digits (n : Nat) : ∀ c ∈ natChars n, isDigitCh c = true := by
  induction n using Nat.strong_induction_on with
  | _ n ih =>
    rw [natChars_eq]
    by_cases h10 : n < 10
    · rw [if_pos h10]
      intro c hc
      simp only [List.mem_singleton] at hc
      subst hc
      exact isDigitCh_char_ofNat n h10
    · rw [if_neg h10]
      intro c hc
      rcases List.mem_append.mp hc with h | h
      · exact ih (n / 10) (Nat.div_lt_self (by omega) (by omega)) c h
      · simp only [List.mem_singleton] at h
        subst h
        exact isDigitCh_char_ofNat _ (Nat.mod_lt _ (by omega))

theorem natChars_ne_nil (n : Nat) : natChars n ≠ [] := by
  rw [natChars_eq]
  by_cases h10 : n < 10
  · simp [h10]
  · simp [h10]

theorem isPySpace_of_digit (c : Char) (h : isDigitCh c = true) : isPySpace c = false := by
  by_contra hsp
  simp only [Bool.not_eq_false, isPySpace, Bool.or_eq_true, decide_eq_true_eq] at hsp
  have hsp2 : c = ' ' ∨ c = '\t' ∨ c = '\n' ∨ c = '\r' ∨ c = '\x0b' ∨ c = '\x0c' := by
    tauto
  rcases hsp2 with h1 | h1 | h1 | h1 | h1 | h1 <;> (subst h1; exact absurd h (by decide))

theorem digit_ne_char (c d : Char) (h : isDigitCh c = true) (hd : isDigitCh d = false) :
    c ≠ d := by
  intro he
  subst he
  rw [h] at hd
  cases hd

theorem pyDigitsAux_all_digits (ds : Str) (h : ∀ c ∈ ds, isDigitCh c = true) :
    ∀ acc, pyDigitsAux ds acc = some (ds.foldl (fun a c => a * 10 + digitVal c) acc) := by
  induction ds with
  | nil => intro acc; rfl
  | cons c rest ih =>
    intro acc
    have hc : isDigitCh c = true := h c (by simp)
    rw [pyDigitsAux.eq_def]
    simp only [hc, if_true, List.foldl_cons]
    exact ih (fun d hd => h d (List.mem_cons.mpr (Or.inr hd))) _

theorem natChars_foldl (n : Nat) :
    ∀ acc, (natChars n).foldl (fun a c => a * 10 + digitVal c) acc
      = acc * 10 ^ (natChars n).length + n := by
  induction n using Nat.strong_induction_on with
  | _ n ih =>
    intro acc
    rw [natChars_eq]
    by_cases h10 : n < 10
    · rw [if_pos h10]
      simp [digitVal_char_ofNat n h10]
    · rw [if_neg h10]
      rw [List.foldl_append]
      rw [ih (n / 10) (Nat.div_lt_self (by omega) (by omega)) acc]
      simp only [List.foldl_cons, List.foldl_nil, List.length_append, List.length_singleton]
      rw [digitVal_char_ofNat _ (Nat.mod_lt _ (by omega))]
      rw [Nat.add_mul, Nat.pow_succ]
      have := Nat.div_add_mod n 10
      ring_nf
      omega

theorem pyNat_natChars (n : Nat) : pyNat (natChars n) = some n := by
  cases hnc : natChars n with
  | nil => exact absurd hnc (natChars_ne_nil n)
  | cons c rest =>
    have hall := natChars_all_digits n
    rw [hnc] at hall
    have hc : isDigitCh c = true := hall c (by simp)
    simp only [pyNat, hc, if_true]
    rw [pyDigitsAux_all_digits rest (fun d hd => hall d (List.mem_cons.mpr (Or.inr hd)))]
    have hfold := natChars_foldl n 0
    rw [hnc] at hfold
    simp only [List.foldl_cons, Nat.zero_mul, Nat.zero_add] at hfold
    rw [hfold]

theorem pyInt_natChars (n : Nat) : pyInt (natChars n) = some (n : Int) := by
  cases hnc : natChars n with
  | nil => exact absurd hnc (natChars_ne_nil n)
  | cons c rest =>
    have hall := natChars_all_digits n
    rw [hnc] at hall
    have hc : isDigitCh c = true := hall c (by simp)
    have hplus : ¬ c = '+' := by
      intro he
      subst he
      exact absurd hc (by decide)
    have hminus : ¬ c = '-' := by
      intro he
      subst he
      exact absurd hc (by decide)
    simp only [pyInt, hplus, hminus, if_false]
    rw [← hnc, pyNat_natChars]
    rfl

/-
`firstTok` / `labelInt` on well-formed labels.
-/

theorem takeWhile_append_stop (p : Char → Bool) (a : Str) (d : Char) (b : Str)
    (ha : ∀ c ∈ a, p c = true) (hd : p d = false) :
    (a ++ d :: b).takeWhile p = a := by
  induction a with
  | nil => simp [List.takeWhile_cons, hd]
  | cons c a ih =>
    have hc : p c = true := ha c (by simp)
    simp only [List.cons_append, List.takeWhile_cons, hc, if_true]
    rw [ih (fun e he => ha e (List.mem_cons.mpr (Or.inr he)))]

theorem firstTok_digits_append (ds : Str) (b : Str) (hds : ds ≠ [])
    (hall : ∀ c ∈ ds, isDigitCh c = true) :
    firstTok (ds ++ ' ' :: b) = some ds := by
  cases ds with
  | nil => exact absurd rfl hds
  | cons c rest =>
    have hc : isDigitCh c = true := hall c (by simp)
    have hcs : isPySpace c = false := isPySpace_of_digit c hc
    unfold firstTok pyLStrip
    rw [List.cons_append, List.dropWhile_cons]
    simp only [hcs, Bool.false_eq_true, if_false]
    have ht : ((c :: (rest ++ ' ' :: b)).takeWhile fun d => !isPySpace d) = c :: rest := by
      have := takeWhile_append_stop (fun d => !isPySpace d) (c :: rest) ' ' b
        (fun e he => by simp [isPySpace_of_digit e (hall e he)]) (by decide)
      simpa using this
    rw [ht]

theorem labelInt_wellformed (n : Nat) (w : Str) :
    labelInt (natChars n ++ ' ' :: w) = some (n : Int) := by
  unfold labelInt
  rw [firstTok_digits_append (natChars n) w (natChars_ne_nil n) (natChars_all_digits n)]
  exact pyInt_natChars n

/-
Counting markup characters: escaped text and rendered numbers contribute
no markup-opening characters.
-/

theorem countLt_append (a b : Str) : countLt (a ++ b) = countLt a + countLt b :=
  List.count_append _ _ _

theorem countLt_eq_zero_iff (s : Str) : countLt s = 0 ↔ '<' ∉ s :=
  List.count_eq_zero

theorem countLt_htmlEscape (s : Str) : countLt (htmlEscape s) = 0 := by
  induction s with
  | nil => rfl
  | cons c rest ih =>
    show countLt (escapeChar c ++ htmlEscape rest) = 0
    rw [countLt_append, ih]
    unfold escapeChar
    by_cases h1 : c = '&'
    · simp [h1, countLt]
    · rw [if_neg h1]
      by_cases h2 : c = '<'
      · simp [h2, countLt]
      · rw [if_neg h2]
        by_cases h3 : c = '>'
        · simp [h3, countLt]
        · rw [if_neg h3]
          by_cases h4 : c = '"'
          · simp [h4, countLt]
          · rw [if_neg h4]
            by_cases h5 : c = Char.ofNat 39
            · simp [h5, countLt]
            · rw [if_neg h5]
              simp [countLt, List.count_singleton]
              intro he
              exact absurd he h2

theorem countGt_htmlEscape (s : Str) : countGt (htmlEscape s) = 0 := by
  induction s with
  | nil => rfl
  | cons c rest ih =>
    show countGt (escapeChar c ++ htmlEscape rest) = 0
    have : countGt (escapeChar c ++ htmlEscape rest) = countGt (escapeChar c) + countGt (htmlEscape rest) :=
      List.count_append _ _ _
    rw [this, ih]
    unfold escapeChar
    by_cases h1 : c = '&'
    · simp [h1, countGt]
    · rw [if_neg h1]
      by_cases h2 : c = '<'
      · simp [h2, countGt]
      · rw [if_neg h2]
        by_cases h3 : c = '>'
        · simp [h3, countGt]
        · rw [if_neg h3]
          by_cases h4 : c = '"'
          · simp [h4, countGt]
          · rw [if_neg h4]
            by_cases h5 : c = Char.ofNat 39
            · simp [h5, countGt]
            · rw [if_neg h5]
              simp [countGt, List.count_singleton]
              intro he
              exact absurd he h3

theorem countLt_natChars (n : Nat) : countLt (natChars n) = 0 := by
  rw [countLt_eq_zero_iff]
  intro hmem
  have := natChars_all_digits n '<' hmem
  exact absurd this (by decide)

theorem commaRevAux_mem (fuel : Nat) :
    ∀ (ds : Str) (c : Char), c ∈ commaRevAux fuel ds → c ∈ ds ∨ c = ',' := by
  induction fuel with
  | zero => intro ds c hc; exact Or.inl hc
  | succ fuel ih =>
    intro ds c hc
    simp only [commaRevAux] at hc
    by_cases h3 : ds.length ≤ 3
    · rw [if_pos h3] at hc
      exact Or.inl hc
    · rw [if_neg h3] at hc
      rcases List.mem_append.mp hc with h | h
      · exact Or.inl (List.take_subset 3 ds h)
      · rcases List.mem_cons.mp h with h | h
        · exact Or.inr h
        · rcases ih (ds.drop 3) c h with h | h
          · exact Or.inl (List.drop_subset 3 ds h)
          · exact Or.inr h

theorem countLt_commaFormat (i : Int) : countLt (commaFormat i) = 0 := by
  have key : ∀ m : Nat, countLt ((commaRev (natChars m).reverse).reverse) = 0 := by
    intro m
    rw [countLt_eq_zero_iff]
    intro hmem
    rw [List.mem_reverse] at hmem
    rcases commaRevAux_mem _ _ _ hmem with h | h
    · rw [List.mem_reverse] at h
      exact absurd (natChars_all_digits m '<' h) (by decide)
    · cases h
  unfold commaFormat
  by_cases hneg : i < 0
  · rw [if_pos hneg]
    show countLt ('-' :: _) = 0
    have : countLt ('-' :: (commaRev (natChars i.natAbs).reverse).reverse)
        = countLt ['-'] + countLt ((commaRev (natChars i.natAbs).reverse).reverse) := by
      show countLt (['-'] ++ _) = _
      exact countLt_append _ _
    rw [this, key]
    decide
  · rw [if_neg hneg]
    exact key _

/-
Parsing one well-formed block.
-/

theorem not_mem_natChars (n : Nat) (c : Char) (hc : isDigitCh c = false) : c ∉ natChars n := by
  intro h
  rw [natChars_all_digits n c h] at hc
  cases hc

theorem pyLStrip_cons_ws (s : Str) (c : Char) (hc : isPySpace c = true) :
    pyLStrip (c :: s) = pyLStrip s := by
  unfold pyLStrip
  rw [List.dropWhile_cons]
  simp [hc]

theorem pyLStrip_cons_nonws (s : Str) (c : Char) (hc : isPySpace c = false) :
    pyLStrip (c :: s) = c :: s := by
  unfold pyLStrip
  rw [List.dropWhile_cons]
  simp [hc]

theorem pyStrip_eq_self_of (s : Str)
    (hhead : ∃ c t, s = c :: t ∧ isPySpace c = false)
    (hlast : ∃ t c, s = t ++ [c] ∧ isPySpace c = false) :
    pyStrip s = s := by
  obtain ⟨t, c, hs, hc⟩ := hlast
  unfold pyStrip
  rw [hs, pyRStrip_append_nonws _ _ hc, ← hs]
  obtain ⟨c0, t0, hs0, hc0⟩ := hhead
  rw [hs0]
  exact pyLStrip_cons_nonws _ _ hc0

theorem sizeLine_cons (n m : Nat) :
    sizeLine n m = 'S' :: ("ize: ".data ++ natChars n ++ " characters, ".data
      ++ natChars m ++ " lines".data) := by
  simp [sizeLine]

theorem sizeLine_snoc (n m : Nat) :
    sizeLine n m = ("Size: ".data ++ natChars n ++ " characters, ".data
      ++ natChars m ++ " line".data) ++ ['s'] := by
  unfold sizeLine
  rw [show (" lines".data : Str) = " line".data ++ ['s'] from rfl]
  simp [List.append_assoc]

theorem nl_not_mem_sizeLine (n m : Nat) : '\n' ∉ sizeLine n m := by
  unfold sizeLine
  intro h
  rcases List.mem_append.mp h with h | h
  · rcases List.mem_append.mp h with h | h
    · rcases List.mem_append.mp h with h | h
      · rcases List.mem_append.mp h with h | h
        · exact absurd h (by decide)
        · exact not_mem_natChars n '\n' (by decide) h
      · exact absurd h (by decide)
    · exact not_mem_natChars m '\n' (by decide) h
  · exact absurd h (by decide)

theorem pyStrip_sizeLine (n m : Nat) : pyStrip (sizeLine n m) = sizeLine n m := by
  apply pyStrip_eq_self_of
  · exact ⟨'S', _, sizeLine_cons n m, by decide⟩
  · exact ⟨_, 's', sizeLine_snoc n m, by decide⟩

theorem stepLine_fileLine (st : FileInfo × Bool) (f : Str) :
    stepLine st ("File: ".data ++ f)
      = some ({ st.1 with filename := pyStrip (removeAll "File: ".data f) }, st.2) := by
  have hps : pyStrip ("File: ".data ++ f) = 'F' :: pyRStrip ("ile: ".data ++ f) := by
    rw [show ("File: ".data ++ f : Str) = 'F' :: ("ile: ".data ++ f) from rfl]
    exact pyStrip_cons_nonws _ _ (by decide)
  have hsep : "--".data.isPrefixOf (pyStrip ("File: ".data ++ f)) = false := by
    rw [hps]
    exact isPrefixOf_cons_of_ne _ _ _ _ (by decide)
  have hfile : "File: ".data.isPrefixOf ("File: ".data ++ f) = true :=
    isPrefixOf_append_self _ _
  unfold stepLine
  rw [hsep, hfile]
  simp only [Bool.false_eq_true, if_false, if_true]
  rw [removeAll_of_leading _ _ (by decide)]

theorem sizeBody_no_colon (n m : Nat) :
    ':' ∉ (natChars n ++ " characters, ".data ++ natChars m ++ " lines".data : Str) := by
  intro h
  rcases List.mem_append.mp h with h | h
  · rcases List.mem_append.mp h with h | h
    · rcases List.mem_append.mp h with h | h
      · exact not_mem_natChars n ':' (by decide) h
      · exact absurd h (by decide)
    · exact not_mem_natChars m ':' (by decide) h
  · exact absurd h (by decide)

theorem stepLine_sizeLine (st : FileInfo × Bool) (n m : Nat) :
    stepLine st (sizeLine n m)
      = some ({ st.1 with
                  size := natChars n ++ " characters".data,
                  lines_count := natChars m ++ " lines".data }, st.2) := by
  have hsep : "--".data.isPrefixOf (pyStrip (sizeLine n m)) = false := by
    rw [pyStrip_sizeLine, sizeLine_cons]
    exact isPrefixOf_cons_of_ne _ _ _ _ (by decide)
  have hfile : "File: ".data.isPrefixOf (sizeLine n m) = false := by
    rw [sizeLine_cons]
    exact isPrefixOf_cons_of_ne _ _ _ _ (by decide)
  have hsize : "Size: ".data.isPrefixOf (sizeLine n m) = true := by
    unfold sizeLine
    rw [show ("Size: ".data ++ natChars n ++ " characters, ".data ++ natChars m
        ++ " lines".data : Str)
      = "Size: ".data ++ (natChars n ++ " characters, ".data ++ natChars m ++ " lines".data)
      from by simp [List.append_assoc]]
    exact isPrefixOf_append_self _ _
  have hbody : removeAll "Size: ".data (sizeLine n m)
      = natChars n ++ " characters, ".data ++ natChars m ++ " lines".data := by
    unfold sizeLine
    rw [show ("Size: ".data ++ natChars n ++ " characters, ".data ++ natChars m
        ++ " lines".data : Str)
      = "Size: ".data ++ (natChars n ++ " characters, ".data ++ natChars m ++ " lines".data)
      from by simp [List.append_assoc]]
    rw [removeAll_of_leading _ _ (by decide)]
    rw [removeAll_of_not_contains _ _ (containsSub_eq_false _ _ ':' (by decide)
      (by
        rw [show (natChars n ++ " characters, ".data ++ natChars m ++ " lines".data : Str)
          = natChars n ++ (" characters, ".data ++ natChars m ++ " lines".data)
          from by simp [List.append_assoc]]
        intro h
        apply sizeBody_no_colon n m
        simpa [List.append_assoc] using h))]
  have hdigit : ∃ c t, natChars n = c :: t ∧ isDigitCh c = true := by
    cases h : natChars n with
    | nil => exact absurd h (natChars_ne_nil n)
    | cons c t =>
      refine ⟨c, t, rfl, ?_⟩
      have := natChars_all_digits n c
      rw [h] at this
      exact this (by simp)
  obtain ⟨c0, t0, hnc, hc0⟩ := hdigit
  have hbody_cons : (natChars n ++ " characters, ".data ++ natChars m ++ " lines".data : Str)
      = c0 :: (t0 ++ " characters, ".data ++ natChars m ++ " lines".data) := by
    rw [hnc]
    simp [List.append_assoc]
  have hbody_snoc : (natChars n ++ " characters, ".data ++ natChars m ++ " lines".data : Str)
      = (natChars n ++ " characters, ".data ++ natChars m ++ " line".data) ++ ['s'] := by
    rw [show (" lines".data : Str) = " line".data ++ ['s'] from rfl]
    simp [List.append_assoc]
  have hpsb : pyStrip (natChars n ++ " characters, ".data ++ natChars m ++ " lines".data)
      = natChars n ++ " characters, ".data ++ natChars m ++ " lines".data := by
    apply pyStrip_eq_self_of
    · exact ⟨c0, _, hbody_cons, isPySpace_of_digit c0 hc0⟩
    · exact ⟨_, 's', hbody_snoc, by decide⟩
  have hchars : containsSub "characters".data
      (natChars n ++ " characters, ".data ++ natChars m ++ " lines".data) = true := by
    rw [show (natChars n ++ " characters, ".data ++ natChars m ++ " lines".data : Str)
      = (natChars n ++ [' ']) ++ "characters".data ++ (", ".data ++ natChars m ++ " lines".data)
      from by
        rw [show (" characters, ".data : Str) = [' '] ++ "characters".data ++ ", ".data from rfl]
        simp [List.append_assoc]]
    exact containsSub_of_decomp _ _ _
  have hlines : containsSub "lines".data
      (natChars n ++ " characters, ".data ++ natChars m ++ " lines".data) = true := by
    rw [show (natChars n ++ " characters, ".data ++ natChars m ++ " lines".data : Str)
      = (natChars n ++ " characters, ".data ++ natChars m ++ [' ']) ++ "lines".data ++ []
      from by
        rw [show (" lines".data : Str) = [' '] ++ "lines".data from rfl]
        simp [List.append_assoc]]
    exact containsSub_of_decomp _ _ _
  have hsplit : splitOnChar ','
      (natChars n ++ " characters, ".data ++ natChars m ++ " lines".data)
      = [natChars n ++ " characters".data, ' ' :: (natChars m ++ " lines".data)] := by
    rw [show (natChars n ++ " characters, ".data ++ natChars m ++ " lines".data : Str)
      = (natChars n ++ " characters".data) ++ ',' :: (' ' :: (natChars m ++ " lines".data))
      from by
        rw [show (" characters, ".data : Str) = " characters".data ++ ',' :: [' '] from rfl]
        simp [List.append_assoc]]
    rw [splitOnChar_append _ _ _ (by
      intro h
      rcases List.mem_append.mp h with h | h
      · exact not_mem_natChars n ',' (by decide) h
      · exact absurd h (by decide))]
    rw [splitOnChar_not_mem _ _ (by
      intro h
      rcases List.mem_cons.mp h with h | h
      · exact absurd h (by decide)
      · rcases List.mem_append.mp h with h | h
        · exact not_mem_natChars m ',' (by decide) h
        · exact absurd h (by decide))]
  have hp0 : pyStrip (natChars n ++ " characters".data) = natChars n ++ " characters".data := by
    apply pyStrip_eq_self_of
    · exact ⟨c0, t0 ++ " characters".data, by rw [hnc]; simp, isPySpace_of_digit c0 hc0⟩
    · refine ⟨natChars n ++ " character".data, 's', ?_, by decide⟩
      rw [show (" characters".data : Str) = " character".data ++ ['s'] from rfl]
      simp [List.append_assoc]
  have hp1 : pyStrip (' ' :: (natChars m ++ " lines".data)) = natChars m ++ " lines".data := by
    have hdigitm : ∃ c t, natChars m = c :: t ∧ isDigitCh c = true := by
      cases h : natChars m with
      | nil => exact absurd h (natChars_ne_nil m)
      | cons c t =>
        refine ⟨c, t, rfl, ?_⟩
        have := natChars_all_digits m c
        rw [h] at this
        exact this (by simp)
    obtain ⟨c1, t1, hnm, hc1⟩ := hdigitm
    unfold pyStrip
    have hsnoc : (' ' :: (natChars m ++ " lines".data) : Str)
        = (' ' :: (natChars m ++ " line".data)) ++ ['s'] := by
      rw [show (" lines".data : Str) = " line".data ++ ['s'] from rfl]
      simp [List.append_assoc]
    rw [hsnoc, pyRStrip_append_nonws _ _ (by decide), ← hsnoc]
    rw [pyLStrip_cons_ws _ _ (by decide)]
    rw [hnm]
    rw [show ((c1 :: t1 : Str) ++ " lines".data) = c1 :: (t1 ++ " lines".data) from rfl]
    exact pyLStrip_cons_nonws _ _ (isPySpace_of_digit c1 hc1)
  unfold stepLine
  rw [hsep, hfile, hsize]
  simp only [Bool.false_eq_true, if_false, if_true]
  rw [hbody]
  simp only [hpsb, hchars, hlines, Bool.and_self, if_true, hsplit]
  rw [hp0, hp1]

theorem parse_file_entry_append_nl (s : Str) :
    parse_file_entry (s ++ ['\n']) = parse_file_entry s := by
  unfold parse_file_entry
  rw [pyStrip_append_ws s '\n' (by decide)]

theorem pyStrip_blockCore (f : Str) (n m : Nat) :
    pyStrip ("File: ".data ++ f ++ '\n' :: sizeLine n m)
      = "File: ".data ++ f ++ '\n' :: sizeLine n m := by
  apply pyStrip_eq_self_of
  · refine ⟨'F', "ile: ".data ++ f ++ '\n' :: sizeLine n m, ?_, by decide⟩
    simp [List.append_assoc]
  · refine ⟨"File: ".data ++ f ++ '\n' ::
      ("Size: ".data ++ natChars n ++ " characters, ".data ++ natChars m ++ " line".data),
      's', ?_, by decide⟩
    rw [sizeLine_snoc]
    simp [List.append_assoc]

theorem parse_file_entry_block (f : Str) (n m : Nat) (hnl : '\n' ∉ f) :
    parse_file_entry ("File: ".data ++ f ++ '\n' :: sizeLine n m) = some (recOf (f, n, m)) := by
  unfold parse_file_entry
  rw [pyStrip_blockCore]
  have hlines : splitOnChar '\n' ("File: ".data ++ f ++ '\n' :: sizeLine n m)
      = ["File: ".data ++ f, sizeLine n m] := by
    rw [show ("File: ".data ++ f ++ '\n' :: sizeLine n m : Str)
      = ("File: ".data ++ f) ++ '\n' :: sizeLine n m from by simp [List.append_assoc]]
    rw [splitOnChar_append _ _ _ (by
      intro h
      rcases List.mem_append.mp h with h | h
      · exact absurd h (by decide)
      · exact hnl h)]
    rw [splitOnChar_not_mem _ _ (nl_not_mem_sizeLine n m)]
  rw [hlines]
  rw [List.foldlM_cons, stepLine_fileLine]
  simp only [Option.bind_eq_bind, Option.some_bind]
  rw [List.foldlM_cons, stepLine_sizeLine]
  simp only [Option.some_bind, List.foldlM_nil]
  rfl

/-
Folding `pstep` over the lines of a well-formed report.
-/

theorem pstep_file (es : List FileInfo) (cur line : Str)
    (h : "File: ".data.isPrefixOf line = true) :
    pstep (es, cur) line = match flushEntry es cur with
      | none => none
      | some es2 => some (es2, line ++ ['\n']) := by
  unfold pstep
  rw [h]
  simp

theorem pstep_nonfile_cons (es : List FileInfo) (cur line : Str)
    (h : "File: ".data.isPrefixOf line = false) (h2 : cur ≠ []) :
    pstep (es, cur) line = some (es, cur ++ line ++ ['\n']) := by
  unfold pstep
  rw [h]
  simp [h2]

theorem pstep_nonfile_nil (es : List FileInfo) (line : Str)
    (h : "File: ".data.isPrefixOf line = false) :
    pstep (es, []) line = some (es, []) := by
  unfold pstep
  rw [h]
  simp

theorem blockText_snoc (b : Str × Nat × Nat) :
    blockText b = ("File: ".data ++ b.1 ++ '\n' :: sizeLine b.2.1 b.2.2) ++ ['\n'] := by
  simp [blockText, List.append_assoc]

theorem blockCore_ne_nil (f : Str) (n m : Nat) :
    ("File: ".data ++ f ++ '\n' :: sizeLine n m : Str) ≠ [] := by
  simp

theorem flushEntry_block (es : List FileInfo) (b : Str × Nat × Nat) (hnl : '\n' ∉ b.1)
    (hfn : pyStrip (removeAll "File: ".data b.1) ≠ []) :
    flushEntry es (blockText b) = some (es ++ [recOf b]) := by
  unfold flushEntry
  rw [blockText_snoc, pyStrip_append_ws _ _ (by decide), pyStrip_blockCore]
  rw [if_pos (blockCore_ne_nil b.1 b.2.1 b.2.2)]
  rw [parse_file_entry_append_nl, parse_file_entry_block b.1 b.2.1 b.2.2 hnl]
  have hrec : recOf (b.1, b.2.1, b.2.2) = recOf b := rfl
  rw [hrec]
  simp only [ne_eq]
  rw [if_pos (by
    show ¬ (recOf b).filename = []
    exact hfn)]

theorem flushEntry_block_nl (es : List FileInfo) (b : Str × Nat × Nat) (hnl : '\n' ∉ b.1)
    (hfn : pyStrip (removeAll "File: ".data b.1) ≠ []) :
    flushEntry es (blockText b ++ ['\n']) = some (es ++ [recOf b]) := by
  unfold flushEntry
  rw [pyStrip_append_ws _ _ (by decide)]
  rw [blockText_snoc, pyStrip_append_ws _ _ (by decide), pyStrip_blockCore]
  rw [if_pos (blockCore_ne_nil b.1 b.2.1 b.2.2)]
  rw [parse_file_entry_append_nl, parse_file_entry_append_nl,
    parse_file_entry_block b.1 b.2.1 b.2.2 hnl]
  have hrec : recOf (b.1, b.2.1, b.2.2) = recOf b := rfl
  rw [hrec]
  simp only [ne_eq]
  rw [if_pos (by
    show ¬ (recOf b).filename = []
    exact hfn)]

theorem fileLine_isPrefixOf (f : Str) : "File: ".data.isPrefixOf ("File: ".data ++ f) = true :=
  isPrefixOf_append_self _ _

theorem fileLine_not_isPrefixOf_sizeLine (n m : Nat) :
    "File: ".data.isPrefixOf (sizeLine n m) = false := by
  rw [sizeLine_cons]
  exact isPrefixOf_cons_of_ne _ _ _ _ (by decide)

theorem splitOnChar_blocks (bs : List (Str × Nat × Nat)) (h : ∀ b ∈ bs, '\n' ∉ b.1) :
    splitOnChar '\n' (joinStrs (bs.map blockText))
      = bs.foldr (fun b acc => ("File: ".data ++ b.1) :: sizeLine b.2.1 b.2.2 :: acc) [[]] := by
  induction bs with
  | nil => rfl
  | cons b bs ih =>
    have hb := h b (by simp)
    have hrest : ∀ x ∈ bs, '\n' ∉ x.1 := fun x hx => h x (List.mem_cons.mpr (Or.inr hx))
    show splitOnChar '\n' (blockText b ++ joinStrs (bs.map blockText)) = _
    rw [show (blockText b ++ joinStrs (bs.map blockText) : Str)
      = ("File: ".data ++ b.1) ++ '\n' ::
          (sizeLine b.2.1 b.2.2 ++ '\n' :: joinStrs (bs.map blockText))
      from by simp [blockText, List.append_assoc]]
    rw [splitOnChar_append _ _ _ (by
      intro hm
      rcases List.mem_append.mp hm with hm | hm
      · exact absurd hm (by decide)
      · exact hb hm)]
    rw [splitOnChar_append _ _ _ (nl_not_mem_sizeLine _ _)]
    rw [ih hrest]
    rfl

theorem pstep_blocks (bs : List (Str × Nat × Nat)) :
    ∀ (pend : Str × Nat × Nat) (es : List FileInfo),
    (∀ b ∈ pend :: bs, '\n' ∉ b.1 ∧ pyStrip (removeAll "File: ".data b.1) ≠ []) →
    List.foldlM pstep (es, blockText pend) (splitOnChar '\n' (joinStrs (bs.map blockText)))
      = some (es ++ ((pend :: bs).dropLast).map recOf,
              blockText ((pend :: bs).getLast (by simp)) ++ ['\n']) := by
  induction bs with
  | nil =>
    intro pend es _
    show List.foldlM pstep (es, blockText pend) [[]] = _
    rw [List.foldlM_cons]
    rw [pstep_nonfile_cons _ _ _ (by decide) (by rw [blockText_snoc]; simp)]
    simp only [Option.some_bind, List.foldlM_nil, List.append_nil]
    simp [List.dropLast, List.getLast]
  | cons b bs ih =>
    intro pend es h
    have hpend := h pend (by simp)
    have hb := h b (by simp)
    have hrest : ∀ x ∈ b :: bs, '\n' ∉ x.1 ∧ pyStrip (removeAll "File: ".data x.1) ≠ [] :=
      fun x hx => h x (List.mem_cons.mpr (Or.inr hx))
    show List.foldlM pstep (es, blockText pend)
      (splitOnChar '\n' (blockText b ++ joinStrs (bs.map blockText))) = _
    rw [show (blockText b ++ joinStrs (bs.map blockText) : Str)
      = ("File: ".data ++ b.1) ++ '\n' ::
          (sizeLine b.2.1 b.2.2 ++ '\n' :: joinStrs (bs.map blockText))
      from by simp [blockText, List.append_assoc]]
    rw [splitOnChar_append _ _ _ (by
      intro hm
      rcases List.mem_append.mp hm with hm | hm
      · exact absurd hm (by decide)
      · exact hb.1 hm)]
    rw [splitOnChar_append _ _ _ (nl_not_mem_sizeLine _ _)]
    rw [List.foldlM_cons]
    rw [pstep_file _ _ _ (fileLine_isPrefixOf b.1)]
    rw [flushEntry_block es pend hpend.1 hpend.2]
    simp only [Option.bind_eq_bind, Option.some_bind]
    rw [List.foldlM_cons]
    rw [pstep_nonfile_cons _ _ _ (fileLine_not_isPrefixOf_sizeLine _ _) (by simp)]
    simp only [Option.bind_eq_bind, Option.some_bind]
    have hcur : ((("File: ".data ++ b.1) ++ ['\n']) ++ sizeLine b.2.1 b.2.2) ++ ['\n']
        = blockText b := by
      simp [blockText, List.append_assoc]
    rw [hcur]
    rw [ih b (es ++ [recOf pend]) hrest]
    have hdl : (pend :: b :: bs).dropLast = pend :: (b :: bs).dropLast := rfl
    have hgl : (pend :: b :: bs).getLast (by simp) = (b :: bs).getLast (by simp) :=
      List.getLast_cons (by simp)
    rw [hdl, hgl]
    simp [List.append_assoc]

theorem parse_reportText (bs : List (Str × Nat × Nat))
    (h : ∀ b ∈ bs, '\n' ∉ b.1 ∧ pyStrip (removeAll "File: ".data b.1) ≠ []) :
    parse_text_content (reportText bs) = some (bs.map recOf) := by
  have hpf : pyFind "RESULTS".data (reportText bs) = some 0 := by
    apply pyFind_of_isPrefixOf
    rw [show reportText bs = "RESULTS".data ++ '\n' :: joinStrs (bs.map blockText) from rfl]
    exact isPrefixOf_append_self _ _
  cases bs with
  | nil => decide
  | cons b bs2 =>
    unfold parse_text_content
    rw [hpf]
    simp only []
    rw [List.drop_zero]
    rw [show reportText (b :: bs2)
      = "RESULTS".data ++ '\n' :: joinStrs ((b :: bs2).map blockText) from rfl]
    rw [splitOnChar_append _ _ _ (by decide)]
    rw [List.foldlM_cons]
    rw [pstep_nonfile_nil [] _ (by decide)]
    simp only [Option.bind_eq_bind, Option.some_bind]
    rw [show joinStrs ((b :: bs2).map blockText)
      = blockText b ++ joinStrs (bs2.map blockText) from rfl]
    rw [show (blockText b ++ joinStrs (bs2.map blockText) : Str)
      = ("File: ".data ++ b.1) ++ '\n' ::
          (sizeLine b.2.1 b.2.2 ++ '\n' :: joinStrs (bs2.map blockText))
      from by simp [blockText, List.append_assoc]]
    rw [splitOnChar_append _ _ _ (by
      intro hm
      rcases List.mem_append.mp hm with hm | hm
      · exact absurd hm (by decide)
      · exact (h b (by simp)).1 hm)]
    rw [splitOnChar_append _ _ _ (nl_not_mem_sizeLine _ _)]
    rw [List.foldlM_cons, pstep_file _ _ _ (fileLine_isPrefixOf b.1)]
    rw [show flushEntry [] [] = some [] from rfl]
    simp only [Option.bind_eq_bind, Option.some_bind]
    rw [List.foldlM_cons]
    rw [pstep_nonfile_cons _ _ _ (fileLine_not_isPrefixOf_sizeLine _ _) (by simp)]
    simp only [Option.bind_eq_bind, Option.some_bind]
    have hcur : ((("File: ".data ++ b.1) ++ ['\n']) ++ sizeLine b.2.1 b.2.2) ++ ['\n']
        = blockText b := by
      simp [blockText, List.append_assoc]
    rw [hcur]
    rw [pstep_blocks bs2 b [] h]
    have hlast := h ((b :: bs2).getLast (by simp)) (List.getLast_mem _)
    simp only []
    rw [flushEntry_block_nl _ _ hlast.1 hlast.2]
    congr 1
    rw [List.nil_append]
    rw [show [recOf ((b :: bs2).getLast (by simp))]
      = List.map recOf [(b :: bs2).getLast (by simp)] from rfl]
    rw [← List.map_append, List.dropLast_append_getLast]

/-
Aggregate counters.
-/

theorem addLabel_eq (acc : Int) (s : Str) : addLabel acc s = acc + labelContribution s := by
  unfold addLabel labelContribution
  by_cases hs : s = []
  · subst hs
    simp [labelInt, firstTok, pyLStrip]
  · rw [if_pos hs]
    cases h : labelInt s with
    | none => simp
    | some n => simp

theorem totals_foldl (entries : List FileInfo) :
    ∀ acc : Int × Int,
      entries.foldl (fun a e => (addLabel a.1 e.size, addLabel a.2 e.lines_count)) acc
      = (acc.1 + (entries.map (fun e => labelContribution e.size)).sum,
         acc.2 + (entries.map (fun e => labelContribution e.lines_count)).sum) := by
  induction entries with
  | nil => intro acc; simp
  | cons e l ih =>
    intro acc
    rw [List.foldl_cons, ih]
    simp [addLabel_eq, Int.add_assoc]

theorem totals_eq_sum (entries : List FileInfo) :
    totals entries
      = ((entries.map (fun e => labelContribution e.size)).sum,
         (entries.map (fun e => labelContribution e.lines_count)).sum) := by
  unfold totals
  rw [totals_foldl]
  simp

theorem labelContribution_recOf_size (b : Str × Nat × Nat) :
    labelContribution (recOf b).size = (b.2.1 : Int) := by
  unfold labelContribution
  have : (recOf b).size = natChars b.2.1 ++ ' ' :: "characters".data := rfl
  rw [this, labelInt_wellformed]

theorem labelContribution_recOf_lines (b : Str × Nat × Nat) :
    labelContribution (recOf b).lines_count = (b.2.2 : Int) := by
  unfold labelContribution
  have : (recOf b).lines_count = natChars b.2.2 ++ ' ' :: "lines".data := rfl
  rw [this, labelInt_wellformed]

/-
Parser invariant: every materialized record has a non-empty filename.
-/

theorem flushEntry_preserves (es es2 : List FileInfo) (cur : Str)
    (h : flushEntry es cur = some es2) (hP : ∀ r ∈ es, r.filename ≠ []) :
    ∀ r ∈ es2, r.filename ≠ [] := by
  unfold flushEntry at h
  by_cases hc : pyStrip cur ≠ []
  · rw [if_pos hc] at h
    cases hp : parse_file_entry cur with
    | none =>
      rw [hp] at h
      cases h
    | some fi =>
      rw [hp] at h
      simp only [] at h
      by_cases hf : fi.filename ≠ []
      · rw [if_pos hf] at h
        injection h with h2
        subst h2
        intro r hr
        rcases List.mem_append.mp hr with hr | hr
        · exact hP r hr
        · rw [List.mem_singleton] at hr
          subst hr
          exact hf
      · rw [if_neg hf] at h
        injection h with h2
        subst h2
        exact hP
  · rw [if_neg hc] at h
    injection h with h2
    subst h2
    exact hP

theorem pstep_preserves (st st1 : List FileInfo × Str) (line : Str)
    (h : pstep st line = some st1) (hP : ∀ r ∈ st.1, r.filename ≠ []) :
    ∀ r ∈ st1.1, r.filename ≠ [] := by
  unfold pstep at h
  by_cases h1 : "File: ".data.isPrefixOf line = true
  · rw [h1] at h
    simp only [if_true] at h
    cases hf : flushEntry st.1 st.2 with
    | none =>
      rw [hf] at h
      cases h
    | some es =>
      rw [hf] at h
      injection h with h2
      subst h2
      exact flushEntry_preserves _ _ _ hf hP
  · rw [Bool.not_eq_true] at h1
    rw [h1] at h
    simp only [Bool.false_eq_true, if_false] at h
    by_cases h2 : st.2 ≠ []
    · rw [if_pos h2] at h
      injection h with h3
      subst h3
      exact hP
    · rw [if_neg h2] at h
      injection h with h3
      subst h3
      exact hP

theorem foldlM_pstep_preserves (lines : List Str) :
    ∀ (st st' : List FileInfo × Str),
      List.foldlM pstep st lines = some st' →
      (∀ r ∈ st.1, r.filename ≠ []) → ∀ r ∈ st'.1, r.filename ≠ [] := by
  induction lines with
  | nil =>
    intro st st' h hP
    simp only [List.foldlM_nil] at h
    injection h with h2
    subst h2
    exact hP
  | cons l ls ih =>
    intro st st' h hP
    rw [List.foldlM_cons] at h
    cases hs : pstep st l with
    | none =>
      rw [hs] at h
      cases h
    | some st1 =>
      rw [hs] at h
      simp only [Option.bind_eq_bind, Option.some_bind] at h
      exact ih st1 st' h (pstep_preserves st st1 l hs hP)

theorem parse_text_content_filenames (content : Str) (l : List FileInfo)
    (h : parse_text_content content = some l) : ∀ r ∈ l, r.filename ≠ [] := by
  unfold parse_text_content at h
  cases hf : pyFind "RESULTS".data content with
  | none =>
    rw [hf] at h
    injection h with h2
    subst h2
    intro r hr
    cases hr
  | some i =>
    rw [hf] at h
    simp only [] at h
    cases hfold : (splitOnChar '\n' (List.drop i content)).foldlM pstep ([], []) with
    | none =>
      rw [hfold] at h
      cases h
    | some st =>
      rw [hfold] at h
      have hst := foldlM_pstep_preserves _ _ _ hfold (by intro r hr; cases hr)
      exact flushEntry_preserves _ _ _ h hst

/-
Structural absence: no marker, or no "File: " line, parses to the empty list.
-/

theorem foldlM_pstep_nil (lines : List Str)
    (h : ∀ l ∈ lines, "File: ".data.isPrefixOf l = false) :
    List.foldlM pstep ([], []) lines = some ([], []) := by
  induction lines with
  | nil => rfl
  | cons l ls ih =>
    rw [List.foldlM_cons]
    rw [pstep_nonfile_nil [] l (h l (by simp))]
    simp only [Option.bind_eq_bind, Option.some_bind]
    exact ih (fun x hx => h x (List.mem_cons.mpr (Or.inr hx)))

theorem parse_text_content_no_marker (content : Str)
    (h : containsSub "RESULTS".data content = false) :
    parse_text_content content = some [] := by
  unfold parse_text_content
  rw [pyFind_none_of_not_contains _ _ (by decide) h]

theorem parse_text_content_no_file (content : Str) (i : Nat)
    (hf : pyFind "RESULTS".data content = some i)
    (h : ∀ l ∈ splitOnChar '\n' (List.drop i content),
      "File: ".data.isPrefixOf l = false) :
    parse_text_content content = some [] := by
  unfold parse_text_content
  rw [hf]
  simp only []
  rw [foldlM_pstep_nil _ h]
  rfl

/-
A single "File: " line block.
-/

theorem parse_file_entry_fileLine (r : Str) (hnl : '\n' ∉ r) (hrs : pyRStrip r = r)
    (hne : r ≠ []) :
    parse_file_entry ("File: ".data ++ r)
      = some { initInfo with filename := pyStrip (removeAll "File: ".data r) } := by
  unfold parse_file_entry
  have hps : pyStrip ("File: ".data ++ r) = "File: ".data ++ r := by
    rw [show ("File: ".data ++ r : Str) = 'F' :: ("ile: ".data ++ r) from rfl]
    rw [pyStrip_cons_nonws _ _ (by decide)]
    rw [pyRStrip_append_left _ _ (by rw [hrs]; exact hne)]
    rw [hrs]
  rw [hps]
  rw [splitOnChar_not_mem _ _ (by
    intro hm
    rcases List.mem_append.mp hm with hm | hm
    · exact absurd hm (by decide)
    · exact hnl hm)]
  rw [List.foldlM_cons, stepLine_fileLine]
  simp only [Option.bind_eq_bind, Option.some_bind, List.foldlM_nil]

/-
Counting markup-opening characters in the rendered document.
-/

theorem countLt_previewLineHtml (l : Str) (h : countLt (pyStrip (preColon l)) = 0) :
    countLt (previewLineHtml l)
      = if containsSub [':'] l then countLt plA + countLt plB + countLt plC else 0 := by
  unfold previewLineHtml
  by_cases hc : containsSub [':'] l = true
  · rw [if_pos hc, if_pos hc]
    rw [countLt_append, countLt_append, countLt_append, countLt_append]
    rw [h, countLt_htmlEscape]
    omega
  · rw [Bool.not_eq_true] at hc
    rw [hc]
    simp [countLt]

theorem countLt_previewJoin (ls : List Str)
    (h : ∀ l ∈ ls, countLt (pyStrip (preColon l)) = 0) :
    countLt (joinStrs (ls.map previewLineHtml))
      = (ls.map (fun l =>
          if containsSub [':'] l then countLt plA + countLt plB + countLt plC else 0)).sum := by
  induction ls with
  | nil => rfl
  | cons l ls ih =>
    show countLt (previewLineHtml l ++ joinStrs (ls.map previewLineHtml)) = _
    rw [countLt_append, countLt_previewLineHtml l (h l (by simp)),
      ih (fun x hx => h x (List.mem_cons.mpr (Or.inr hx)))]
    simp

theorem countLt_entryHtml (e : FileInfo)
    (h : ∀ l ∈ e.preview_lines, countLt (pyStrip (preColon l)) = 0) :
    countLt (entryHtml e) = entryLtBudget e := by
  unfold entryHtml entryLtBudget
  simp only [countLt_append]
  rw [countLt_htmlEscape, countLt_htmlEscape, countLt_htmlEscape]
  have hprev : countLt (if e.preview_lines = [] then noPreviewHtml
      else joinStrs (e.preview_lines.map previewLineHtml))
      = (if e.preview_lines = [] then countLt noPreviewHtml
        else (e.preview_lines.map (fun l =>
          if containsSub [':'] l then countLt plA + countLt plB + countLt plC else 0)).sum) := by
    by_cases hp : e.preview_lines = []
    · rw [if_pos hp, if_pos hp]
    · rw [if_neg hp, if_neg hp]
      exact countLt_previewJoin _ h
  have hrem : countLt (if 0 < e.remaining_lines
      then remA ++ natChars e.remaining_lines ++ remB else [])
      = (if 0 < e.remaining_lines then countLt remA + countLt remB else 0) := by
    by_cases hr : 0 < e.remaining_lines
    · rw [if_pos hr, if_pos hr]
      rw [countLt_append, countLt_append, countLt_natChars]
      omega
    · rw [if_neg hr, if_neg hr]
      rfl
  rw [hprev, hrem]
  omega

theorem countLt_entriesJoin (entries : List FileInfo)
    (h : ∀ e ∈ entries, ∀ l ∈ e.preview_lines, countLt (pyStrip (preColon l)) = 0) :
    countLt (joinStrs (entries.map entryHtml)) = (entries.map entryLtBudget).sum := by
  induction entries with
  | nil => rfl
  | cons e es ih =>
    show countLt (entryHtml e ++ joinStrs (es.map entryHtml)) = _
    rw [countLt_append, countLt_entryHtml e (h e (by simp)),
      ih (fun x hx => h x (List.mem_cons.mpr (Or.inr hx)))]
    simp

theorem countLt_generate_html (entries : List FileInfo) (ts : Str)
    (hts : countLt ts = 0)
    (h : ∀ e ∈ entries, ∀ l ∈ e.preview_lines, countLt (pyStrip (preColon l)) = 0) :
    countLt (generate_html entries defTitle ts)
      = fixedLt + (entries.map entryLtBudget).sum := by
  unfold generate_html fixedLt
  simp only [countLt_append]
  rw [countLt_commaFormat, countLt_commaFormat, countLt_natChars, hts]
  rw [countLt_entriesJoin entries h]
  have htitle : countLt defTitle = 0 := by decide
  rw [htitle]
  omega

theorem occursIn_self (p : Str) : occursIn p p := ⟨[], [], by simp⟩

theorem occursIn_of_decomp2 (p s pre post doc : Str) (h : occursIn p s)
    (he : doc = pre ++ s ++ post) : occursIn p doc := by
  subst he
  exact occursIn_append_right _ _ _ (occursIn_append_left _ _ _ h)

/-
Counting non-whitespace characters: preserved by stripping, strictly
decreased by removing an occurrence of "File: ".
-/

theorem countNonWs_cons (c : Char) (s : Str) :
    countNonWs (c :: s) = (if isPySpace c then 0 else 1) + countNonWs s := by
  unfold countNonWs
  rw [List.filter_cons]
  by_cases h : isPySpace c = true
  · simp [h]
  · rw [Bool.not_eq_true] at h
    simp [h]
    omega

theorem countNonWs_append (a b : Str) : countNonWs (a ++ b) = countNonWs a + countNonWs b := by
  unfold countNonWs
  rw [List.filter_append, List.length_append]

theorem countNonWs_dropWhile_ws (s : Str) :
    countNonWs (List.dropWhile isPySpace s) = countNonWs s := by
  induction s with
  | nil => rfl
  | cons c rest ih =>
    rw [List.dropWhile_cons]
    by_cases h : isPySpace c = true
    · rw [if_pos h, ih, countNonWs_cons, if_pos h]
      omega
    · rw [Bool.not_eq_true] at h
      rw [if_neg (by rw [h]; exact Bool.false_ne_true)]

theorem countNonWs_reverse (s : Str) : countNonWs s.reverse = countNonWs s := by
  induction s with
  | nil => rfl
  | cons c rest ih =>
    rw [List.reverse_cons, countNonWs_append, ih, countNonWs_cons, countNonWs_cons]
    have hnil : countNonWs ([] : Str) = 0 := rfl
    omega

theorem countNonWs_pyStrip (s : Str) : countNonWs (pyStrip s) = countNonWs s := by
  unfold pyStrip pyLStrip pyRStrip
  rw [countNonWs_dropWhile_ws, countNonWs_reverse, countNonWs_dropWhile_ws, countNonWs_reverse]

theorem countNonWs_drop_le (n : Nat) (s : Str) : countNonWs (List.drop n s) ≤ countNonWs s := by
  unfold countNonWs
  exact ((List.drop_sublist n s).filter _).length_le

theorem isPrefixOf_decompose (p : Str) :
    ∀ s : Str, p.isPrefixOf s = true → p ++ List.drop p.length s = s := by
  induction p with
  | nil => intro s _; simp
  | cons a p ih =>
    intro s h
    cases s with
    | nil => simp [List.isPrefixOf] at h
    | cons b s2 =>
      simp only [List.isPrefixOf, Bool.and_eq_true, beq_iff_eq] at h
      rw [List.length_cons, List.cons_append, List.drop_succ_cons, ih s2 h.2, h.1]

theorem countNonWs_removeAllAux_le (pat : Str) :
    ∀ (fuel : Nat) (s : Str), countNonWs (removeAllAux pat fuel s) ≤ countNonWs s := by
  intro fuel
  induction fuel with
  | zero =>
    intro s
    cases s with
    | nil => exact Nat.le_refl _
    | cons c rest => exact Nat.le_refl _
  | succ fuel ih =>
    intro s
    cases s with
    | nil => exact Nat.le_refl _
    | cons c rest =>
      show countNonWs (removeAllAux pat (fuel + 1) (c :: rest)) ≤ _
      rw [removeAllAux]
      by_cases hcond : (pat.isPrefixOf (c :: rest) && !pat.isEmpty) = true
      · rw [if_pos hcond]
        have h1 := ih (List.drop (pat.length - 1) rest)
        have h2 := countNonWs_drop_le (pat.length - 1) rest
        have h3 : countNonWs rest ≤ countNonWs (c :: rest) := by
          rw [countNonWs_cons]
          omega
        omega
      · rw [if_neg hcond]
        rw [countNonWs_cons, countNonWs_cons]
        have := ih rest
        omega

theorem countNonWs_removeAllAux_strict (pat : Str) (hp : pat ≠ []) :
    ∀ (fuel : Nat) (s : Str), s.length ≤ fuel → containsSub pat s = true →
      countNonWs (removeAllAux pat fuel s) + countNonWs pat ≤ countNonWs s := by
  intro fuel
  induction fuel with
  | zero =>
    intro s hf hc
    have hs : s = [] := List.length_eq_zero.mp (Nat.le_zero.mp hf)
    subst hs
    simp only [containsSub, List.isEmpty_iff] at hc
    exact absurd hc hp
  | succ fuel ih =>
    intro s hf hc
    cases s with
    | nil =>
      simp only [containsSub, List.isEmpty_iff] at hc
      exact absurd hc hp
    | cons c rest =>
      show countNonWs (removeAllAux pat (fuel + 1) (c :: rest)) + _ ≤ _
      rw [removeAllAux]
      by_cases hcond : (pat.isPrefixOf (c :: rest) && !pat.isEmpty) = true
      · rw [if_pos hcond]
        have hpre : pat.isPrefixOf (c :: rest) = true := by
          rcases Bool.and_eq_true_iff.mp hcond with ⟨h1, _⟩
          exact h1
        have hdec := isPrefixOf_decompose pat (c :: rest) hpre
        have hdrop : List.drop pat.length (c :: rest) = List.drop (pat.length - 1) rest := by
          cases pat with
          | nil => exact absurd rfl hp
          | cons p0 ps =>
            rw [List.length_cons, List.drop_succ_cons]
            congr 1
        rw [hdrop] at hdec
        have hcount : countNonWs (c :: rest)
            = countNonWs pat + countNonWs (List.drop (pat.length - 1) rest) := by
          conv_lhs => rw [← hdec]
          rw [countNonWs_append]
        have h1 := countNonWs_removeAllAux_le pat fuel (List.drop (pat.length - 1) rest)
        omega
      · rw [if_neg hcond]
        have hpre : pat.isPrefixOf (c :: rest) = false := by
          by_contra hb
          rw [Bool.not_eq_false] at hb
          apply hcond
          rw [hb]
          simp [List.isEmpty_iff, hp]
        have hrest : containsSub pat rest = true := by
          simp only [containsSub, hpre, Bool.false_or] at hc
          exact hc
        have hlen : rest.length ≤ fuel := by
          simp only [List.length_cons] at hf
          omega
        have := ih rest hlen hrest
        rw [countNonWs_cons, countNonWs_cons]
        omega

theorem countNonWs_removeAll_strict (pat s : Str) (hp : pat ≠ [])
    (hc : containsSub pat s = true) :
    countNonWs (removeAll pat s) + countNonWs pat ≤ countNonWs s :=
  countNonWs_removeAllAux_strict pat hp s.length s (Nat.le_refl _) hc

/-
The trimmed replace-all image coincides with the trimmed original exactly
when the pattern does not occur.
-/

theorem pyStrip_removeAll_iff (r : Str) :
    pyStrip (removeAll "File: ".data r) = pyStrip r
      ↔ containsSub "File: ".data r = false := by
  constructor
  · intro h
    by_contra hc
    rw [Bool.not_eq_false] at hc
    have hstrict := countNonWs_removeAll_strict "File: ".data r (by decide) hc
    have hc2 := congrArg countNonWs h
    rw [countNonWs_pyStrip, countNonWs_pyStrip] at hc2
    have h5 : countNonWs "File: ".data = 5 := by decide
    omega
  · intro h
    rw [removeAll_of_not_contains _ _ h]

/-
Lines other than "File: " lines never change the filename field.
-/

theorem stepLine_filename (st st2 : FileInfo × Bool) (l : Str)
    (h : "File: ".data.isPrefixOf l = false) (hs : stepLine st l = some st2) :
    st2.1.filename = st.1.filename := by
  unfold stepLine at hs
  by_cases h1 : "--".data.isPrefixOf (pyStrip l) = true
  · rw [h1] at hs
    simp only [if_true] at hs
    injection hs with h2
    subst h2
    rfl
  · rw [Bool.not_eq_true] at h1
    rw [h1] at hs
    simp only [Bool.false_eq_true, if_false] at hs
    rw [h] at hs
    simp only [Bool.false_eq_true, if_false] at hs
    by_cases h3 : "Size: ".data.isPrefixOf l = true
    · rw [h3] at hs
      simp only [if_true] at hs
      by_cases h4 : (containsSub "characters".data (pyStrip (removeAll "Size: ".data l))
          && containsSub "lines".data (pyStrip (removeAll "Size: ".data l))) = true
      · rw [h4] at hs
        simp only [if_true] at hs
        cases hsp : splitOnChar ',' (pyStrip (removeAll "Size: ".data l)) with
        | nil =>
          rw [hsp] at hs
          cases hs
        | cons p0 t =>
          cases t with
          | nil =>
            rw [hsp] at hs
            cases hs
          | cons p1 t2 =>
            rw [hsp] at hs
            injection hs with h5
            subst h5
            rfl
      · rw [Bool.not_eq_true] at h4
        rw [h4] at hs
        simp only [Bool.false_eq_true, if_false] at hs
        injection hs with h5
        subst h5
        rfl
    · rw [Bool.not_eq_true] at h3
      rw [h3] at hs
      simp only [Bool.false_eq_true, if_false] at hs
      by_cases h6 : "Preview (first".data.isPrefixOf (pyStrip l) = true
      · rw [h6] at hs
        simp only [if_true] at hs
        injection hs with h5
        subst h5
        rfl
      · rw [Bool.not_eq_true] at h6
        rw [h6] at hs
        simp only [Bool.false_eq_true, if_false] at hs
        by_cases h7 : (st.2 && matchPreviewLine l) = true
        · rw [h7] at hs
          simp only [if_true] at hs
          injection hs with h5
          subst h5
          rfl
        · rw [Bool.not_eq_true] at h7
          rw [h7] at hs
          simp only [Bool.false_eq_true, if_false] at hs
          by_cases h8 : (containsSub "... (".data l && containsSub "more lines)".data l) = true
          · rw [h8] at hs
            simp only [if_true] at hs
            cases hfm : findMore l with
            | some k =>
              rw [hfm] at hs
              injection hs with h5
              subst h5
              rfl
            | none =>
              rw [hfm] at hs
              injection hs with h5
              subst h5
              rfl
          · rw [Bool.not_eq_true] at h8
            rw [h8] at hs
            simp only [Bool.false_eq_true, if_false] at hs
            injection hs with h5
            subst h5
            rfl

theorem foldlM_stepLine_filename (lines : List Str) :
    ∀ (st st2 : FileInfo × Bool),
      (∀ l ∈ lines, "File: ".data.isPrefixOf l = false) →
      List.foldlM stepLine st lines = some st2 →
      st2.1.filename = st.1.filename := by
  induction lines with
  | nil =>
    intro st st2 _ h
    simp only [List.foldlM_nil] at h
    injection h with h2
    subst h2
    rfl
  | cons l ls ih =>
    intro st st2 h hf
    rw [List.foldlM_cons] at hf
    cases hs : stepLine st l with
    | none =>
      rw [hs] at hf
      cases hf
    | some st1 =>
      rw [hs] at hf
      simp only [Option.bind_eq_bind, Option.some_bind] at hf
      rw [ih st1 st2 (fun x hx => h x (List.mem_cons.mpr (Or.inr hx))) hf]
      exact stepLine_filename st st1 l (h l (by simp)) hs

/-
Parsing a general record block: the filename comes from the first line.
-/

theorem mem_pyRStrip (s : Str) (c : Char) (h : c ∈ pyRStrip s) : c ∈ s := by
  unfold pyRStrip at h
  rw [List.mem_reverse] at h
  have h2 := (List.dropWhile_sublist (l := s.reverse) (p := isPySpace)).subset h
  rw [List.mem_reverse] at h2
  exact h2

theorem parse_file_entry_multiline (r rest : Str) (fi : FileInfo)
    (hnl : '\n' ∉ r) (hrs : pyRStrip rest ≠ [])
    (hlines : ∀ l ∈ splitOnChar '\n' (pyRStrip rest), "File: ".data.isPrefixOf l = false)
    (hp : parse_file_entry ("File: ".data ++ r ++ '\n' :: rest) = some fi) :
    fi.filename = pyStrip (removeAll "File: ".data r) := by
  unfold parse_file_entry at hp
  have hstrip : pyStrip ("File: ".data ++ r ++ '\n' :: rest)
      = ("File: ".data ++ r) ++ '\n' :: pyRStrip rest := by
    rw [show ("File: ".data ++ r ++ '\n' :: rest : Str)
      = ("File: ".data ++ r ++ ['\n']) ++ rest from by simp [List.append_assoc]]
    unfold pyStrip
    rw [pyRStrip_append_left _ _ hrs]
    rw [show (("File: ".data ++ r ++ ['\n']) ++ pyRStrip rest : Str)
      = 'F' :: (("ile: ".data ++ r ++ ['\n']) ++ pyRStrip rest) from by
        simp [List.append_assoc]]
    rw [pyLStrip_cons_nonws _ _ (by decide)]
    simp [List.append_assoc]
  rw [hstrip] at hp
  rw [splitOnChar_append _ _ _ (by
    intro hm
    rcases List.mem_append.mp hm with hm | hm
    · exact absurd hm (by decide)
    · exact hnl hm)] at hp
  rw [List.foldlM_cons, stepLine_fileLine] at hp
  simp only [Option.bind_eq_bind, Option.some_bind] at hp
  cases hfold : List.foldlM stepLine
      ({ initInfo with filename := pyStrip (removeAll "File: ".data r) }, false)
      (splitOnChar '\n' (pyRStrip rest)) with
  | none =>
    rw [hfold] at hp
    cases hp
  | some st2 =>
    rw [hfold] at hp
    simp only [] at hp
    injection hp with h2
    subst h2
    exact foldlM_stepLine_filename _ _ _ hlines hfold

theorem parse_file_entry_singleLine (r : Str) (hnl : '\n' ∉ r) (hne : pyRStrip r ≠ []) :
    parse_file_entry ("File: ".data ++ r ++ ['\n'])
      = some { initInfo with filename := pyStrip (removeAll "File: ".data (pyRStrip r)) } := by
  rw [show ("File: ".data ++ r ++ ['\n'] : Str) = ("File: ".data ++ r) ++ ['\n'] from by
    simp [List.append_assoc]]
  rw [parse_file_entry_append_nl]
  unfold parse_file_entry
  have hstrip : pyStrip ("File: ".data ++ r) = "File: ".data ++ pyRStrip r := by
    unfold pyStrip
    rw [pyRStrip_append_left _ _ hne]
    rw [show ("File: ".data ++ pyRStrip r : Str) = 'F' :: ("ile: ".data ++ pyRStrip r)
      from rfl]
    rw [pyLStrip_cons_nonws _ _ (by decide)]
  rw [hstrip]
  rw [splitOnChar_not_mem _ _ (by
    intro hm
    rcases List.mem_append.mp hm with hm | hm
    · exact absurd hm (by decide)
    · exact hnl (mem_pyRStrip _ _ hm))]
  rw [List.foldlM_cons, stepLine_fileLine]
  simp only [Option.bind_eq_bind, Option.some_bind, List.foldlM_nil]

/-
The claims.
-/

/-- C1: the claim says the report parser never raises and that a "Size: "
line containing both "characters" and "lines" but no comma leaves the labels
at their defaults.  The code disagrees: on such a line `parts[1]` raises an
uncaught IndexError (modelled as `none`), as this evaluation of the embedded
parser at the failing input shows. -/
theorem claim_C1 :
    parse_text_content "RESULTS\nFile: x\nSize: 5 characters lines".data = none := by
  decide

/-- C3 counterexample: for the block "File: File: a" the claim predicts the
filename "File: a" (remainder after the prefix, trimmed), but the
`line.replace('File: ', '')` removes every occurrence, producing "a". -/
theorem claim_C3_counterexample :
    (parse_file_entry "File: File: a".data).map FileInfo.filename = some "a".data
    ∧ "a".data ≠ pyStrip "File: a".data := by
  decide

/-- C3 (amended): for a record block whose first line starts with "File: ",
the parsed filename equals the first line of the stripped block with every
occurrence of "File: " removed (left to right, as str.replace does), then
trimmed.  First conjunct: a multi-line block "File: " ++ r, newline, rest,
whose later (stripped) lines do not start with "File: " — as in every block
parse_text_content forms — yields filename strip(removeAll r), for every r,
trailing whitespace included.  Second conjunct: a single-line block with its
trailing newline, where the final strip first right-trims r.  Third
conjunct: the result equals the trimmed remainder after the prefix exactly
when (iff) the remainder contains no further occurrence of "File: ". -/
theorem claim_C3 :
    (∀ (r rest : Str) (fi : FileInfo), '\n' ∉ r → pyRStrip rest ≠ [] →
      (∀ l ∈ splitOnChar '\n' (pyRStrip rest), "File: ".data.isPrefixOf l = false) →
      parse_file_entry ("File: ".data ++ r ++ '\n' :: rest) = some fi →
      fi.filename = pyStrip (removeAll "File: ".data r))
    ∧ (∀ r : Str, '\n' ∉ r → pyRStrip r ≠ [] →
      parse_file_entry ("File: ".data ++ r ++ ['\n'])
        = some { initInfo with filename := pyStrip (removeAll "File: ".data (pyRStrip r)) })
    ∧ (∀ r : Str,
      pyStrip (removeAll "File: ".data r) = pyStrip r
        ↔ containsSub "File: ".data r = false) :=
  ⟨parse_file_entry_multiline, parse_file_entry_singleLine, pyStrip_removeAll_iff⟩

theorem claim_C3_witness :
    (FileInfo.mk "a.md".data "10 characters".data "2 lines".data [] 0).filename
      = pyStrip (removeAll "File: ".data "a.md  ".data)
    ∧ parse_file_entry ("File: ".data ++ "b.md ".data ++ ['\n'])
        = some { initInfo with
                   filename := pyStrip (removeAll "File: ".data (pyRStrip "b.md ".data)) }
    ∧ (pyStrip (removeAll "File: ".data "File: c".data) = pyStrip "File: c".data
        ↔ containsSub "File: ".data "File: c".data = false) :=
  ⟨claim_C3.1 "a.md  ".data "Size: 10 characters, 2 lines\n".data
      (FileInfo.mk "a.md".data "10 characters".data "2 lines".data [] 0)
      (by decide) (by decide) (by decide) (by decide),
   claim_C3.2.1 "b.md ".data (by decide) (by decide),
   claim_C3.2.2 "File: c".data⟩

/-- C5: an input with no occurrence of the RESULTS marker, or with the
marker but no "File: " line from the marker on, parses to the empty record
sequence without an error. -/
theorem claim_C5 :
    (∀ content : Str, containsSub "RESULTS".data content = false →
      parse_text_content content = some [])
    ∧ (∀ (content : Str) (i : Nat), pyFind "RESULTS".data content = some i →
      (∀ l ∈ splitOnChar '\n' (List.drop i content),
        "File: ".data.isPrefixOf l = false) →
      parse_text_content content = some []) :=
  ⟨parse_text_content_no_marker, parse_text_content_no_file⟩

theorem claim_C5_witness :
    parse_text_content "no marker here".data = some []
    ∧ parse_text_content "RESULTS\nnothing".data = some [] :=
  ⟨claim_C5.1 "no marker here".data (by decide),
   claim_C5.2 "RESULTS\nnothing".data 0 (by decide) (by decide)⟩

/-- C6: a block with a preview heading, the preview lines "1: a" and "2: b",
the trailer "... (3 more lines)" and a subsequent digit-colon line "3: c"
parses to preview_lines ["1: a", "2: b"] (the later digit-colon line is not
captured) and remaining_count 3. -/
theorem claim_C6 :
    parse_file_entry
      "File: f\nPreview (first 5 lines):\n  1: a\n  2: b\n  ... (3 more lines)\n  3: c".data
      = some { initInfo with
                 filename := "f".data,
                 preview_lines := ["1: a".data, "2: b".data],
                 remaining_lines := 3 } := by
  decide

/-- C7: the renderer reads the clock exactly once per invocation, and its
output depends only on the records, the title, and that single clock value:
two renders with the same frozen first clock value are byte-identical. -/
theorem claim_C7 : ∀ (entries : List FileInfo) (title : Str) (c c2 : Nat → Str),
    c 0 = c2 0 →
    (generate_html_clocked c entries title).2 = 1
    ∧ generate_html_clocked c entries title = generate_html_clocked c2 entries title := by
  intro entries title c c2 h
  unfold generate_html_clocked readClock
  exact ⟨rfl, by rw [h]⟩

theorem claim_C7_witness :
    (generate_html_clocked (fun _ => []) [] defTitle).2 = 1
    ∧ generate_html_clocked (fun _ => []) [] defTitle
      = generate_html_clocked (fun _ => []) [] defTitle :=
  claim_C7 [] defTitle (fun _ => []) (fun _ => []) rfl

/-- C8: every record returned by parse_text_content has a non-empty
filename: blocks without a (non-empty) "File: " remainder never produce a
record. -/
theorem claim_C8 : ∀ (content : Str) (l : List FileInfo),
    parse_text_content content = some l → ∀ r ∈ l, r.filename ≠ [] :=
  parse_text_content_filenames

theorem claim_C8_witness :
    ({ initInfo with filename := "a".data } : FileInfo).filename ≠ [] :=
  claim_C8 "RESULTS\nFile: a".data [{ initInfo with filename := "a".data }]
    (by decide) _ (by simp)

/-- C9 counterexample: the line "1: ... (x more lines)" contains both
"... (" and "more lines)" and its embedded-integer pattern does not match,
yet inside preview mode it is captured as a preview line and preview mode is
not exited, because the digit-colon branch shadows the trailer branch. -/
theorem claim_C9_counterexample :
    containsSub "... (".data "1: ... (x more lines)".data = true
    ∧ containsSub "more lines)".data "1: ... (x more lines)".data = true
    ∧ findMore "1: ... (x more lines)".data = none
    ∧ stepLine (initInfo, true) "1: ... (x more lines)".data
        = some ({ initInfo with preview_lines := ["1: ... (x more lines)".data] }, true) := by
  decide

/-- C9 (amended): a line containing both "... (" and "more lines)" that is
not a separator, "File: ", "Size: ", or preview-heading line and does not
match the digit-colon pattern exits preview mode even when the
embedded-integer pattern does not match; the record (and so remaining_count)
is left unchanged. -/
theorem claim_C9 : ∀ (fi : FileInfo) (b : Bool) (line : Str),
    containsSub "... (".data line = true →
    containsSub "more lines)".data line = true →
    "--".data.isPrefixOf (pyStrip line) = false →
    "File: ".data.isPrefixOf line = false →
    "Size: ".data.isPrefixOf line = false →
    "Preview (first".data.isPrefixOf (pyStrip line) = false →
    matchPreviewLine line = false →
    findMore line = none →
    stepLine (fi, b) line = some (fi, false) := by
  intro fi b line h1 h2 h3 h4 h5 h6 h7 h8
  unfold stepLine
  simp [h1, h2, h3, h4, h5, h6, h7, h8]

theorem claim_C9_witness :
    stepLine (initInfo, true) "  ... (x more lines)".data = some (initInfo, false) :=
  claim_C9 initInfo true "  ... (x more lines)".data (by decide) (by decide) (by decide)
    (by decide) (by decide) (by decide) (by decide) (by decide)

/-- C4: the aggregates of the renderer are the count of records and the sums of
the leading integer tokens of the size and lines labels (absent or
unparsable tokens contributing 0); consequently, parsing a report built
from well-formed "File: "/"Size: N characters, M lines" blocks and
re-deriving the aggregates gives the number of blocks and the sums of N
and of M. -/
theorem claim_C4 :
    (∀ entries : List FileInfo,
        (totals entries).1 = (entries.map (fun e => labelContribution e.size)).sum
      ∧ (totals entries).2 = (entries.map (fun e => labelContribution e.lines_count)).sum)
    ∧ (∀ bs : List (Str × Nat × Nat),
        (∀ b ∈ bs, '\n' ∉ b.1 ∧ pyStrip (removeAll "File: ".data b.1) ≠ []) →
        parse_text_content (reportText bs) = some (bs.map recOf)
        ∧ (bs.map recOf).length = bs.length
        ∧ (totals (bs.map recOf)).1 = (bs.map (fun b => (b.2.1 : Int))).sum
        ∧ (totals (bs.map recOf)).2 = (bs.map (fun b => (b.2.2 : Int))).sum) := by
  constructor
  · intro entries
    rw [totals_eq_sum]
    exact ⟨rfl, rfl⟩
  · intro bs h
    refine ⟨parse_reportText bs h, by simp, ?_, ?_⟩
    · rw [totals_eq_sum]
      simp only [List.map_map]
      congr 1
      apply List.map_congr_left
      intro b _
      exact labelContribution_recOf_size b
    · rw [totals_eq_sum]
      simp only [List.map_map]
      congr 1
      apply List.map_congr_left
      intro b _
      exact labelContribution_recOf_lines b

theorem claim_C4_witness :
    parse_text_content (reportText [("f".data, 12, 3)])
      = some ([("f".data, 12, 3)].map recOf)
    ∧ ([("f".data, 12, 3)].map recOf).length = [("f".data, 12, 3)].length
    ∧ (totals ([("f".data, 12, 3)].map recOf)).1
        = ([("f".data, 12, 3)].map (fun b => (b.2.1 : Int))).sum
    ∧ (totals ([("f".data, 12, 3)].map recOf)).2
        = ([("f".data, 12, 3)].map (fun b => (b.2.2 : Int))).sum :=
  claim_C4.2 [("f".data, 12, 3)] (by decide)

/-- C10: the renderer inserts the caller-supplied title verbatim, without
HTML escaping, into the `<title>` element and the header `<h1>` of the
produced document, for every record sequence, title, and timestamp. -/
theorem claim_C10 : ∀ (entries : List FileInfo) (title ts : Str),
    occursIn ("<title>".data ++ title ++ "</title>".data) (generate_html entries title ts)
    ∧ occursIn ("<h1>".data ++ title ++ "</h1>".data) (generate_html entries title ts) := by
  intro entries title ts
  constructor
  · apply occursIn_of_decomp2 _ _ hpA
      (hpB ++ cssStr ++ hpC ++ "<h1>".data ++ title ++ "</h1>".data ++ hpD ++ ts ++ hpE
        ++ natChars entries.length ++ hpF ++ commaFormat (totals entries).1 ++ hpG
        ++ commaFormat (totals entries).2 ++ hpH ++ joinStrs (entries.map entryHtml)
        ++ docTailHtml) _ (occursIn_self _)
    unfold generate_html
    simp only [List.append_assoc]
  · apply occursIn_of_decomp2 _ _
      (hpA ++ "<title>".data ++ title ++ "</title>".data ++ hpB ++ cssStr ++ hpC)
      (hpD ++ ts ++ hpE ++ natChars entries.length ++ hpF ++ commaFormat (totals entries).1
        ++ hpG ++ commaFormat (totals entries).2 ++ hpH ++ joinStrs (entries.map entryHtml)
        ++ docTailHtml) _ (occursIn_self _)
    unfold generate_html
    simp only [List.append_assoc]

/-- C2 counterexample: the claim says all user-controlled text, including
preview content, is HTML-escaped before insertion.  The renderer inserts
the pre-colon line-number token of each preview line unescaped, so a record
whose preview line starts "<script>:" puts a raw "<script>" in the output
document. -/
theorem claim_C2_counterexample :
    occursIn "<script>".data
      (generate_html [{ initInfo with
          filename := "a".data,
          preview_lines := ["<script>:x".data] }] defTitle "T".data) := by
  unfold generate_html
  apply occursIn_append_right
  apply occursIn_append_left
  rw [show joinStrs (List.map entryHtml [{ initInfo with
      filename := "a".data,
      preview_lines := ["<script>:x".data] }])
    = entryHtml { initInfo with
        filename := "a".data,
        preview_lines := ["<script>:x".data] } ++ [] from rfl]
  apply occursIn_append_right
  rw [show entryHtml { initInfo with
      filename := "a".data,
      preview_lines := ["<script>:x".data] }
    = epA ++ "a".data ++ epB ++ [] ++ epC ++ [] ++ epD
        ++ (previewLineHtml "<script>:x".data ++ []) ++ closePreviewHtml ++ []
        ++ entryTailHtml from rfl]
  apply occursIn_append_right
  apply occursIn_append_right
  apply occursIn_append_right
  apply occursIn_append_left
  apply occursIn_append_right
  rw [show previewLineHtml "<script>:x".data
    = plA ++ "<script>".data ++ plB ++ "x".data ++ plC from rfl]
  apply occursIn_append_right
  apply occursIn_append_right
  apply occursIn_append_right
  apply occursIn_append_left
  exact occursIn_self _

/-- C2 (amended): the filename, the size and lines labels, and the
post-colon content of each preview line are HTML-escaped before insertion
(escaped text contains no markup characters at all), so the count of
markup-opening characters of the document is exactly the fixed template
budget, independent of those fields; the pre-colon line-number token is
inserted unescaped.  For a record whose filename contains "<script>" the
output contains the escaped entities, and the escaped filename cannot
contain an unescaped "<script>". -/
theorem claim_C2 :
    (∀ s : Str, countLt (htmlEscape s) = 0 ∧ countGt (htmlEscape s) = 0)
    ∧ (∀ (entries : List FileInfo) (ts : Str), countLt ts = 0 →
        (∀ e ∈ entries, ∀ l ∈ e.preview_lines, countLt (pyStrip (preColon l)) = 0) →
        countLt (generate_html entries defTitle ts)
          = fixedLt + (entries.map entryLtBudget).sum)
    ∧ occursIn "&lt;script&gt;".data
        (generate_html [{ initInfo with filename := "a<script>b.md".data }]
          defTitle "T".data)
    ∧ ¬ occursIn "<script>".data (htmlEscape "a<script>b.md".data) := by
  refine ⟨fun s => ⟨countLt_htmlEscape s, countGt_htmlEscape s⟩,
    fun entries ts hts h => countLt_generate_html entries ts hts h, ?_, ?_⟩
  · unfold generate_html
    apply occursIn_append_right
    apply occursIn_append_left
    rw [show joinStrs (List.map entryHtml
        [{ initInfo with filename := "a<script>b.md".data }])
      = entryHtml { initInfo with filename := "a<script>b.md".data } ++ [] from rfl]
    apply occursIn_append_right
    rw [show entryHtml { initInfo with filename := "a<script>b.md".data }
      = epA ++ htmlEscape "a<script>b.md".data ++ epB ++ [] ++ epC ++ [] ++ epD
          ++ noPreviewHtml ++ closePreviewHtml ++ [] ++ entryTailHtml from rfl]
    apply occursIn_append_right
    apply occursIn_append_right
    apply occursIn_append_right
    apply occursIn_append_right
    apply occursIn_append_right
    apply occursIn_append_right
    apply occursIn_append_right
    apply occursIn_append_right
    apply occursIn_append_right
    apply occursIn_append_left
    exact ⟨"a".data, "b.md".data, by decide⟩
  · exact not_occursIn_of_not_mem _ _ '<' (by decide)
      ((countLt_eq_zero_iff _).mp (countLt_htmlEscape _))

theorem claim_C2_witness :
    countLt (generate_html [initInfo] defTitle []) = fixedLt + ([initInfo].map entryLtBudget).sum :=
  claim_C2.2.1 [initInfo] [] rfl (by decide)
